import Mathlib

/-!
# Verification of the PPF → encrypted CPI converter

A shallow embedding of `src/converter.js`.  Byte buffers (JS `Uint8Array`)
are modelled as `List Nat` whose elements are below 256; JS strings are
modelled by their UTF-8 byte sequences.  JS 32-bit integer operations are
modelled on `Nat`: `x << n` becomes `(x <<< n) % 2^32` where the shift can
overflow 32 bits, `x >>> n` becomes `x >>> n` (all values are kept below
`2^32`), `&`, `|`, `^` become `&&&`, `|||`, `^^^`, and out-of-range indexed
reads (which yield `undefined`, coerced to 0 by the bitwise operators)
become `List.getD _ _ 0`.
-/

namespace Converter

/-- JS 32-bit left shift: shift then truncate to 32 bits. -/
def shl32 (x n : Nat) : Nat := (x <<< n) % 4294967296

/-- Indexed read from a byte buffer (`buf[i]`, with `undefined ↦ 0`). -/
def getB (buf : List Nat) (i : Nat) : Nat := buf.getD i 0

/-- JS `buf.slice(a, b)` (clipping at the end of the buffer). -/
def jsSlice (buf : List Nat) (a b : Nat) : List Nat := (buf.drop a).take (b - a)

/-! ## DES SP tables (combined S-box + P permutation), from `converter.js` -/

def SP1 : List Nat := [
  0x00808200,0x00000000,0x00008000,0x00808202,0x00808002,0x00008202,0x00000002,0x00008000,
  0x00000200,0x00808200,0x00808202,0x00000200,0x00800202,0x00808002,0x00800000,0x00000002,
  0x00000202,0x00800200,0x00800200,0x00008200,0x00008200,0x00808000,0x00808000,0x00800202,
  0x00008002,0x00800002,0x00800002,0x00008002,0x00000000,0x00000202,0x00008202,0x00800000,
  0x00008000,0x00808202,0x00000002,0x00808000,0x00808200,0x00800000,0x00800000,0x00000200,
  0x00808002,0x00008000,0x00008200,0x00800002,0x00000200,0x00000002,0x00800202,0x00008202,
  0x00808202,0x00008002,0x00808000,0x00800202,0x00800002,0x00000202,0x00008202,0x00808200,
  0x00000202,0x00800200,0x00800200,0x00000000,0x00008002,0x00008200,0x00000000,0x00808002]

def SP2 : List Nat := [
  0x40084010,0x40004000,0x00004000,0x00084010,0x00080000,0x00000010,0x40080010,0x40004010,
  0x40000010,0x40084010,0x40084000,0x40000000,0x40004000,0x00080000,0x00000010,0x40080010,
  0x00084000,0x00080010,0x40004010,0x00000000,0x40000000,0x00004000,0x00084010,0x40080000,
  0x00080010,0x40000010,0x00000000,0x00084000,0x00004010,0x40084000,0x40080000,0x00004010,
  0x00000000,0x00084010,0x40080010,0x00080000,0x40004010,0x40080000,0x40084000,0x00004000,
  0x40080000,0x40004000,0x00000010,0x40084010,0x00084010,0x00000010,0x00004000,0x40000000,
  0x00004010,0x40084000,0x00080000,0x40000010,0x00080010,0x40004010,0x40000010,0x00080010,
  0x00084000,0x00000000,0x40004000,0x00004010,0x40000000,0x40080010,0x40084010,0x00084000]

def SP3 : List Nat := [
  0x00000104,0x04010100,0x00000000,0x04010004,0x04000100,0x00000000,0x00010104,0x04000100,
  0x00010004,0x04000004,0x04000004,0x00010000,0x04010104,0x00010004,0x04010000,0x00000104,
  0x04000000,0x00000004,0x04010100,0x00000100,0x00010100,0x04010000,0x04010004,0x00010104,
  0x04000104,0x00010100,0x00010000,0x04000104,0x00000004,0x04010104,0x00000100,0x04000000,
  0x04010100,0x04000000,0x00010004,0x00000104,0x00010000,0x04010100,0x04000100,0x00000000,
  0x00000100,0x00010004,0x04010104,0x04000100,0x04000004,0x00000100,0x00000000,0x04010004,
  0x04000104,0x00010000,0x04000000,0x04010104,0x00000004,0x00010104,0x00010100,0x04000004,
  0x04010000,0x04000104,0x00000104,0x04010000,0x00010104,0x00000004,0x04010004,0x00010100]

def SP4 : List Nat := [
  0x80401000,0x80001040,0x80001040,0x00000040,0x00401040,0x80400040,0x80400000,0x80001000,
  0x00000000,0x00401000,0x00401000,0x80401040,0x80000040,0x00000000,0x00400040,0x80400000,
  0x80000000,0x00001000,0x00400000,0x80401000,0x00000040,0x00400000,0x80001000,0x00001040,
  0x80400040,0x80000000,0x00001040,0x00400040,0x00001000,0x00401040,0x80401040,0x80000040,
  0x00400040,0x80400000,0x00401000,0x80401040,0x80000040,0x00000000,0x00000000,0x00401000,
  0x00001040,0x00400040,0x80400040,0x80000000,0x80401000,0x80001040,0x80001040,0x00000040,
  0x80401040,0x80000040,0x80000000,0x00001000,0x80400000,0x80001000,0x00401040,0x80400040,
  0x80001000,0x00001040,0x00400000,0x80401000,0x00000040,0x00400000,0x00001000,0x00401040]

def SP5 : List Nat := [
  0x00000080,0x01040080,0x01040000,0x21000080,0x00040000,0x00000080,0x20000000,0x01040000,
  0x20040080,0x00040000,0x01000080,0x20040080,0x21000080,0x21040000,0x00040080,0x20000000,
  0x01000000,0x20040000,0x20040000,0x00000000,0x20000080,0x21040080,0x21040080,0x01000080,
  0x21040000,0x20000080,0x00000000,0x21000000,0x01040080,0x01000000,0x21000000,0x00040080,
  0x00040000,0x21000080,0x00000080,0x01000000,0x20000000,0x01040000,0x21000080,0x20040080,
  0x01000080,0x20000000,0x21040000,0x01040080,0x20040080,0x00000080,0x01000000,0x21040000,
  0x21040080,0x00040080,0x21000000,0x21040080,0x01040000,0x00000000,0x20040000,0x21000000,
  0x00040080,0x01000080,0x20000080,0x00040000,0x00000000,0x20040000,0x01040080,0x20000080]

def SP6 : List Nat := [
  0x10000008,0x10200000,0x00002000,0x10202008,0x10200000,0x00000008,0x10202008,0x00200000,
  0x10002000,0x00202008,0x00200000,0x10000008,0x00200008,0x10002000,0x10000000,0x00002008,
  0x00000000,0x00200008,0x10002008,0x00002000,0x00202000,0x10002008,0x00000008,0x10200008,
  0x10200008,0x00000000,0x00202008,0x10202000,0x00002008,0x00202000,0x10202000,0x10000000,
  0x10002000,0x00000008,0x10200008,0x00202000,0x10202008,0x00200000,0x00002008,0x10000008,
  0x00200000,0x10002000,0x10000000,0x00002008,0x10000008,0x10202008,0x00202000,0x10200000,
  0x00202008,0x10202000,0x00000000,0x10200008,0x00000008,0x00002000,0x10200000,0x00202008,
  0x00002000,0x00200008,0x10002008,0x00000000,0x10202000,0x10000000,0x00200008,0x10002008]

def SP7 : List Nat := [
  0x00100000,0x02100001,0x02000401,0x00000000,0x00000400,0x02000401,0x00100401,0x02100400,
  0x02100401,0x00100000,0x00000000,0x02000001,0x00000001,0x02000000,0x02100001,0x00000401,
  0x02000400,0x00100401,0x00100001,0x02000400,0x02000001,0x02100000,0x02100400,0x00100001,
  0x02100000,0x00000400,0x00000401,0x02100401,0x00100400,0x00000001,0x02000000,0x00100400,
  0x02000000,0x00100400,0x00100000,0x02000401,0x02000401,0x02100001,0x02100001,0x00000001,
  0x00100001,0x02000000,0x02000400,0x00100000,0x02100400,0x00000401,0x00100401,0x02100400,
  0x00000401,0x02000001,0x02100401,0x02100000,0x00100400,0x00000000,0x00000001,0x02100401,
  0x00000000,0x00100401,0x02100000,0x00000400,0x02000001,0x02000400,0x00000400,0x00100001]

def SP8 : List Nat := [
  0x08000820,0x00000800,0x00020000,0x08020820,0x08000000,0x08000820,0x00000020,0x08000000,
  0x00020020,0x08020000,0x08020820,0x00020800,0x08020800,0x00020820,0x00000800,0x00000020,
  0x08020000,0x08000020,0x08000800,0x00000820,0x00020800,0x00020020,0x08020020,0x08020800,
  0x00000820,0x00000000,0x00000000,0x08020020,0x08000020,0x08000800,0x00020820,0x00020000,
  0x00020820,0x00020000,0x08020800,0x00000800,0x00000020,0x08020020,0x00000800,0x00020820,
  0x08000800,0x00000020,0x08000020,0x08020000,0x08020020,0x08000000,0x00020000,0x08000820,
  0x00000000,0x08020820,0x00020020,0x08000020,0x08020000,0x08000800,0x08000820,0x00000000,
  0x08020820,0x00020800,0x00020800,0x00000820,0x00000820,0x00020020,0x08000000,0x08020800]

def ROTATIONS : List Nat := [1,1,2,2,2,2,2,2,1,2,2,2,2,2,2,1]

/-! ## DES core -/

/-- `bytesToLR`: convert an 8-byte block to the two 32-bit halves `(L, R)`. -/
def bytesToLR (buf : List Nat) (off : Nat) : Nat × Nat :=
  (getB buf off <<< 24 ||| getB buf (off+1) <<< 16 ||| getB buf (off+2) <<< 8 ||| getB buf (off+3),
   getB buf (off+4) <<< 24 ||| getB buf (off+5) <<< 16 ||| getB buf (off+6) <<< 8 ||| getB buf (off+7))

/-- `lrToBytes`: convert two 32-bit halves to 8 bytes. -/
def lrToBytes (L R : Nat) : List Nat :=
  [L >>> 24 &&& 0xff, L >>> 16 &&& 0xff, L >>> 8 &&& 0xff, L &&& 0xff,
   R >>> 24 &&& 0xff, R >>> 16 &&& 0xff, R >>> 8 &&& 0xff, R &&& 0xff]

/-- One delta-swap step `t = ((L >>> d) ^ R) & m; R ^= t; L ^= t << d`
of the initial/final permutations. -/
def dswapA (d m : Nat) (p : Nat × Nat) : Nat × Nat :=
  let t := (p.1 >>> d ^^^ p.2) &&& m
  (p.1 ^^^ shl32 t d, p.2 ^^^ t)

/-- One delta-swap step `t = ((R >>> d) ^ L) & m; L ^= t; R ^= t << d`
(the mirror-image variant used by steps 3 and 4 of `initialPerm`). -/
def dswapB (d m : Nat) (p : Nat × Nat) : Nat × Nat :=
  let t := (p.2 >>> d ^^^ p.1) &&& m
  (p.1 ^^^ t, p.2 ^^^ shl32 t d)

/-- `initialPerm`: DES initial permutation as five delta swaps. -/
def initialPerm (L R : Nat) : Nat × Nat :=
  dswapA 1 0x55555555 (dswapB 8 0x00FF00FF (dswapB 2 0x33333333
    (dswapA 16 0x0000FFFF (dswapA 4 0x0F0F0F0F (L, R)))))

/-- `finalPerm`: the inverse permutation (the same swaps in reverse order). -/
def finalPerm (L R : Nat) : Nat × Nat :=
  dswapA 4 0x0F0F0F0F (dswapA 16 0x0000FFFF (dswapB 2 0x33333333
    (dswapB 8 0x00FF00FF (dswapA 1 0x55555555 (L, R)))))

def PC1_C : List Nat :=
  [57,49,41,33,25,17,9,1,58,50,42,34,26,18,10,2,59,51,43,35,27,19,11,3,60,52,44,36]

def PC1_D : List Nat :=
  [63,55,47,39,31,23,15,7,62,54,46,38,30,22,14,6,61,53,45,37,29,21,13,5,28,20,12,4]

def PC2 : List Nat :=
  [14,17,11,24, 1, 5, 3,28,15, 6,21,10,
   23,19,12, 4,26, 8,16, 7,27,20,13, 2,
   41,52,31,37,47,55,30,40,51,45,33,48,
   44,49,39,56,34,53,46,42,50,36,29,32]

/-- `getBit64` inside `generateSubKeys`: bit `bit1based` (1-based, MSB-first)
of the 8-byte key. -/
def getBit64 (k : List Nat) (bit1based : Nat) : Nat :=
  getB k ((bit1based - 1) / 8) >>> (7 - (bit1based - 1) % 8) &&& 1

/-- Bit selection from the combined 56-bit `C ‖ D` register (1-based). -/
def getBitCD (C D bit1based : Nat) : Nat :=
  if bit1based ≤ 28 then C >>> (28 - bit1based) &&& 1
  else D >>> (56 - bit1based) &&& 1

/-- The 16-round key-schedule loop of `generateSubKeys`: rotate `C`/`D` by the
per-round amount, then select the 48 subkey bits through PC-2. -/
def ksRounds : List Nat → Nat → Nat → List (Nat × Nat)
  | [], _, _ => []
  | r :: rs, C, D =>
    let C' := (C <<< r ||| C >>> (28 - r)) &&& 0x0FFFFFFF
    let D' := (D <<< r ||| D >>> (28 - r)) &&& 0x0FFFFFFF
    let kHi := (List.range 24).foldl (fun a i => a ||| getBitCD C' D' (PC2.getD i 0) <<< (23 - i)) 0
    let kLo := (List.range 24).foldl
      (fun a i => a ||| getBitCD C' D' (PC2.getD (24 + i) 0) <<< (23 - i)) 0
    (kHi, kLo) :: ksRounds rs C' D'

/-- `generateSubKeys`: 16 round subkeys, each packed as two 24-bit halves. -/
def generateSubKeys (keyBytes : List Nat) : List (Nat × Nat) :=
  let C0 := (List.range 28).foldl (fun c i => c ||| getBit64 keyBytes (PC1_C.getD i 0) <<< (27 - i)) 0
  let D0 := (List.range 28).foldl (fun c i => c ||| getBit64 keyBytes (PC1_D.getD i 0) <<< (27 - i)) 0
  ksRounds ROTATIONS C0 D0

/-- `desF`: the DES round function (implicit E expansion, key XOR, SP lookups). -/
def desF (R : Nat) (K : Nat × Nat) : Nat :=
  let g0 := (((R &&& 1) <<< 5) ||| (R >>> 27 &&& 0x1F)) ^^^ (K.1 >>> 18)
  let g1 := (R >>> 23 &&& 0x3F) ^^^ (K.1 >>> 12 &&& 0x3F)
  let g2 := (R >>> 19 &&& 0x3F) ^^^ (K.1 >>> 6 &&& 0x3F)
  let g3 := (R >>> 15 &&& 0x3F) ^^^ (K.1 &&& 0x3F)
  let g4 := (R >>> 11 &&& 0x3F) ^^^ (K.2 >>> 18)
  let g5 := (R >>> 7 &&& 0x3F) ^^^ (K.2 >>> 12 &&& 0x3F)
  let g6 := (R >>> 3 &&& 0x3F) ^^^ (K.2 >>> 6 &&& 0x3F)
  let g7 := ((((R &&& 0x1F) <<< 1) ||| (R >>> 31 &&& 1)) ^^^ (K.2 &&& 0x3F)) &&& 0x3F
  SP1.getD g0 0 ^^^ SP2.getD g1 0 ^^^ SP3.getD g2 0 ^^^ SP4.getD g3 0 ^^^
    SP5.getD g4 0 ^^^ SP6.getD g5 0 ^^^ SP7.getD g6 0 ^^^ SP8.getD g7 0

/-- One Feistel round: `newR = (L ^ f(R, K)) >>> 0; L = R; R = newR`. -/
def feistelStep (p : Nat × Nat) (K : Nat × Nat) : Nat × Nat :=
  (p.2, (p.1 ^^^ desF p.2 K) % 4294967296)

/-- `desBlock`: encrypt a single 8-byte block (16 rounds, subkeys in order). -/
def desBlock (block : List Nat) (subKeys : List (Nat × Nat)) : List Nat :=
  let p0 := bytesToLR block 0
  let p1 := initialPerm p0.1 p0.2
  let p2 := subKeys.foldl feistelStep p1
  let p3 := finalPerm p2.2 p2.1
  lrToBytes p3.1 p3.2

/-- `desDecryptBlock`: identical to `desBlock` but the loop walks the 16
subkeys from index 15 down to 0, i.e. it folds over the reversed schedule. -/
def desDecryptBlock (block : List Nat) (subKeys : List (Nat × Nat)) : List Nat :=
  let p0 := bytesToLR block 0
  let p1 := initialPerm p0.1 p0.2
  let p2 := subKeys.reverse.foldl feistelStep p1
  let p3 := finalPerm p2.2 p2.1
  lrToBytes p3.1 p3.2

/-- `msbParity`: clear each key byte's top bit, then set it to the value that
makes the byte's total parity odd (`~t & 0x80` on the parity-accumulator). -/
def msbParity (keyBytes : List Nat) : List Nat :=
  keyBytes.map fun kb =>
    let b := kb &&& 0x7F
    let t1 := b ^^^ (b <<< 4 &&& 0xFF)
    let t2 := t1 ^^^ (t1 <<< 2 &&& 0xFF)
    let t3 := t2 ^^^ (t2 <<< 1 &&& 0xFF)
    b ||| ((t3 &&& 0x80) ^^^ 0x80)

/-! ## Chunk reader

Chunk tags are modelled as their 4 ASCII bytes (the JS code decodes them to
strings before comparing; on the ASCII tag vocabulary the two comparisons
coincide). -/

def tagXPFH : List Nat := [88,80,70,72]
def tagXPIH : List Nat := [88,80,73,72]
def tagXMDL : List Nat := [88,77,68,76]
def tagXPID : List Nat := [88,80,73,68]
def tagEUID : List Nat := [69,85,73,68]
def tagETIT : List Nat := [69,84,73,84]
def tagBLOB : List Nat := [66,76,79,66]
def tagEEXT : List Nat := [69,69,88,84]
def tagEICO : List Nat := [69,73,67,79]
def tagFBIN : List Nat := [70,66,73,78]
def tagCSEC : List Nat := [67,83,69,67]
def tagABCF : List Nat := [65,66,67,70]
def tagAIRI : List Nat := [65,73,82,73]
def tagAIVF : List Nat := [65,73,86,70]
def tagABEI : List Nat := [65,66,69,73]

/-- `KNOWN_TAGS`, in source order. -/
def knownTags : List (List Nat) :=
  [tagXPFH, tagXPIH, tagXMDL, tagXPID, tagEUID, tagETIT, tagBLOB, tagEEXT,
   tagEICO, tagFBIN, tagCSEC]

/-- `readUint32BE`. -/
def readUint32BE (buf : List Nat) (off : Nat) : Nat :=
  getB buf off <<< 24 ||| getB buf (off+1) <<< 16 ||| getB buf (off+2) <<< 8 ||| getB buf (off+3)

/-- `writeUint32BE` (as the 4 bytes written). -/
def u32be (v : Nat) : List Nat :=
  [v >>> 24 &&& 0xff, v >>> 16 &&& 0xff, v >>> 8 &&& 0xff, v &&& 0xff]

/-- `isKnownTag`. -/
def isKnownTag (buf : List Nat) (pos : Nat) : Bool :=
  if buf.length < pos + 4 then false
  else decide (jsSlice buf pos (pos + 4) ∈ knownTags)

/-- The `skipToNextTag` scan loop, fuelled; `end - pos` fuel is exact. -/
def skipGo : Nat → List Nat → Nat → Nat → Nat
  | 0, _, pos, _ => pos
  | f+1, buf, pos, e =>
    if pos < e then (if isKnownTag buf pos then pos else skipGo f buf (pos+1) e) else pos

/-- `skipToNextTag`. -/
def skipToNextTag (buf : List Nat) (pos e : Nat) : Nat := skipGo (e - pos) buf pos e

/-- A decoded chunk record `{ id, size, data, offset }`. -/
structure RChunk where
  id : List Nat
  size : Nat
  data : List Nat
  offset : Nat
deriving DecidableEq

/-- The `readChunks` while-loop, fuelled (each iteration advances `pos` by at
least 8, so any fuel of at least `e - pos` gives the loop's exact behaviour). -/
def readGo : Nat → List Nat → Nat → Nat → List RChunk
  | 0, _, _, _ => []
  | f+1, buf, pos, e =>
    if pos + 8 ≤ e then
      let p := skipToNextTag buf pos e
      if p + 8 ≤ e then
        let id := jsSlice buf p (p+4)
        if id ∈ knownTags then
          let size := readUint32BE buf (p+4)
          let dataEnd := min (p + 8 + size) e
          ⟨id, size, jsSlice buf (p+8) dataEnd, p⟩ :: readGo f buf dataEnd e
        else []
      else []
    else []

/-- `readChunks buf startOffset endOffset`. -/
def readChunks (buf : List Nat) (startOffset endOffset : Nat) : List RChunk :=
  readGo (endOffset - startOffset) buf startOffset endOffset

/-- `readSubChunks` (recursive decode of a container chunk's payload). -/
def readSubChunks (c : RChunk) : List RChunk := readChunks c.data 0 c.data.length

/-- `chunkText`: strips every NUL byte (the JS code strips every `\x00`
character of the decoded string, not just the terminator). -/
def stripNul (l : List Nat) : List Nat := l.filter (fun b => b ≠ 0)

/-! ## Chunk builder -/

/-- The first 4 bytes of `buildChunk`'s output buffer: the (ASCII) tag,
zero-padded if shorter than 4 bytes. -/
def tag4 (id : List Nat) : List Nat := id.take 4 ++ List.replicate (4 - id.length) 0

/-- `buildChunk`: tag ++ big-endian length ++ payload. -/
def buildChunk (id data : List Nat) : List Nat := tag4 id ++ u32be data.length ++ data

/-- `buildContainerChunk` (`concatArrays` is list concatenation). -/
def buildContainerChunk (id : List Nat) (subChunks : List (List Nat)) : List Nat :=
  buildChunk id subChunks.flatten

/-- `buildTextChunk`: the payload is the text's bytes plus a NUL terminator. -/
def buildTextChunk (id text : List Nat) : List Nat := buildChunk id (text ++ [0])

/-! ## Pack data model -/

structure Blob where
  uid : List Nat
  title : List Nat
  extension : List Nat
  iconCode : Option (List Nat)
  binaryData : List Nat
deriving DecidableEq

structure Pack where
  uid : List Nat
  title : List Nat
  blobs : List Blob
deriving DecidableEq

/-- One step of the per-BLOB sub-chunk loop of `parsePPFRaw`. -/
def parseBlobStep (e : Blob) (s : RChunk) : Blob :=
  if s.id = tagEUID then { e with uid := stripNul s.data }
  else if s.id = tagETIT then { e with title := stripNul s.data }
  else if s.id = tagEEXT then { e with extension := stripNul s.data }
  else if s.id = tagEICO then { e with iconCode := some (stripNul s.data) }
  else if s.id = tagFBIN then { e with binaryData := s.data }
  else e

/-- The per-BLOB sub-chunk loop of `parsePPFRaw`. -/
def parseBlobEntry (c : RChunk) : Blob :=
  (readSubChunks c).foldl parseBlobStep ⟨[], [], [], none, []⟩

/-- One step of the top-level chunk loop of `parsePPFRaw` (first EUID wins,
first ETIT wins, each BLOB is appended). -/
def parseStep (p : Pack) (c : RChunk) : Pack :=
  if c.id = tagEUID then (if p.uid = [] then { p with uid := stripNul c.data } else p)
  else if c.id = tagETIT then (if p.title = [] then { p with title := stripNul c.data } else p)
  else if c.id = tagBLOB then { p with blobs := p.blobs ++ [parseBlobEntry c] }
  else p

/-- `parsePPFRaw`: decode chunks starting at offset 8 and fold them into a
`Pack`. -/
def parsePPFRaw (buf : List Nat) : Pack :=
  (readChunks buf 8 buf.length).foldl parseStep ⟨[], [], []⟩

/-! ## CBC chaining, padding, Triple-DES -/

/-- The block loop of `encryptDES_CBC`, fuelled (each iteration consumes 8
input bytes; `data.length` fuel is always enough). Out-of-range reads of the
final partial block behave as 0, as in JS. -/
def cbcEncGo (subKeys : List (Nat × Nat)) : Nat → List Nat → List Nat → List Nat
  | 0, _, _ => []
  | f+1, data, prev =>
    if data.isEmpty then [] else
      let block := (List.range 8).map fun j => getB data j ^^^ getB prev j
      let enc := desBlock block subKeys
      enc ++ cbcEncGo subKeys f (data.drop 8) enc

/-- `encryptDES_CBC`. -/
def encryptDES_CBC (data keyBytes iv : List Nat) : List Nat :=
  cbcEncGo (generateSubKeys (msbParity keyBytes)) data.length data iv

/-- The block loop of `tripleDesEncryptCBC` (EDE composition per block). -/
def tdesGo (sk1 sk2 sk3 : List (Nat × Nat)) : Nat → List Nat → List Nat → List Nat
  | 0, _, _ => []
  | f+1, data, prev =>
    if data.isEmpty then [] else
      let block := (List.range 8).map fun j => getB data j ^^^ getB prev j
      let enc := desBlock (desDecryptBlock (desBlock block sk1) sk2) sk3
      enc ++ tdesGo sk1 sk2 sk3 f (data.drop 8) enc

/-- `tripleDesEncryptCBC` (zero IV). -/
def tripleDesEncryptCBC (data key24 : List Nat) : List Nat :=
  tdesGo (generateSubKeys (msbParity (jsSlice key24 0 8)))
    (generateSubKeys (msbParity (jsSlice key24 8 16)))
    (generateSubKeys (msbParity (jsSlice key24 16 24)))
    data.length data (List.replicate 8 0)

/-- `addYamahaPadding`: extend with zero bytes to the next full block (a whole
extra block when already aligned), then store `length % 8` in the last byte. -/
def addYamahaPadding (data : List Nat) : List Nat :=
  let remainder := data.length % 8
  let padLen := if remainder = 0 then 8 else 8 - remainder
  (data ++ List.replicate padLen 0).set (data.length + padLen - 1) remainder

/-! ## Constants -/

def DES_KEY : List Nat := [0x46, 0x6f, 0x61, 0x74, 0x66, 0x6b, 0x69, 0x6f]

def DES_IV : List Nat := List.replicate 8 0

def DES_KEY_DUALSEAL : List Nat := [0x64, 0x75, 0x61, 0x6C, 0x73, 0x65, 0x61, 0x6C]

def XOR_SEED : List Nat :=
  [0x0F, 0x62, 0xBE, 0x39, 0xD1, 0x70, 0xC7, 0xF4,
   0x1A, 0x85, 0x2D, 0x5C, 0x96, 0xE8, 0x4B, 0xA3]

def EXPANSION_TABLE : List Nat :=
  [0x07, 0x0C, 0x0E, 0x0A, 0x0B, 0x0D, 0x00, 0x01,
   0x06, 0x02, 0x0F, 0x03, 0x09, 0x04, 0x08, 0x05,
   0x00, 0x0F, 0x02, 0x08, 0x06, 0x09, 0x01, 0x0A,
   0x0E, 0x0C, 0x0B, 0x03, 0x04, 0x05, 0x07, 0x0D,
   0x07, 0x05, 0x0C, 0x04, 0x0F, 0x0D, 0x01, 0x09,
   0x08, 0x0A, 0x00, 0x03, 0x0B, 0x06, 0x0E, 0x02]

def CSEC_ENCRYPTED : List Nat :=
  [0x5a,0x51,0x7c,0x40,0x5f,0x44,0x7c,0x02,
   0x90,0x3b,0xcc,0x5e,0x1d,0x69,0xdc,0xf8,
   0x52,0x2f,0xe8,0x75,0xd0,0xed,0x7f,0x97,
   0xf3,0xef,0x1e,0x23,0x6e,0x4f,0x9d,0x80,
   0x29,0x87,0x42,0x89,0xad,0xdc,0xc3,0xc2,
   0x23,0xff,0xa3,0x65,0x55,0xc2,0x5d,0xaf,
   0xf4,0x93,0x11,0x96,0xf1,0x4d,0xa7,0xd9,
   0x12,0xe6,0x07,0xee,0x15,0xc0,0x45,0x24,
   0x26,0x58,0x5c,0x1f,0xb4,0x50,0x56,0xe7,
   0x54,0xbc,0xe9,0x49,0xf6,0xda,0xf0,0x55]

/-! ## Device-lock crypto -/

/-- `keyDerivation`: `null` on empty input, else a 16-byte folded key. -/
def keyDerivation (src : List Nat) : Option (List Nat) :=
  if src.length = 0 then none
  else
    let length := min src.length 128
    let buf := src.take 128 ++ List.replicate (128 - length) 0
    if 16 ≤ length then
      some ((List.range 16).map fun i =>
        (List.range 8).foldl (fun v c => v ^^^ getB buf (c * 16 + i)) 0)
    else
      some ((List.range 16).map fun i =>
        if i < length then getB src i
        else getB XOR_SEED i ^^^ getB src ((i - length) % length))

/-- `keyExpansion`: spread the 16-byte key into 24 bytes via the fixed table
(output index `idx = r*8 + j`). -/
def keyExpansion (key16 : List Nat) : List Nat :=
  (List.range 24).map fun idx =>
    getB key16 (EXPANSION_TABLE.getD (2 * (idx % 8) + (idx / 8) * 16) 0) ^^^
      getB key16 (EXPANSION_TABLE.getD (2 * (idx % 8) + 1 + (idx / 8) * 16) 0)

/-- The `second_data` block of `generateLockedCSEC`:
`secondData[j] = (keySlot[j] + firstData[15-j]) & 0xFF`. -/
def lockedSecondData (keySlot firstData : List Nat) : List Nat :=
  (List.range 16).map fun j => (getB keySlot j + getB firstData (15 - j)) % 256

/-- `generateLockedCSEC`.  The 16 bytes drawn from
`crypto.getRandomValues` are passed in as the `firstData` parameter; the JS
`throw` on an empty identifier is modelled as `none`. -/
def generateLockedCSEC (deviceFullId firstData : List Nat) : Option (List Nat) :=
  match keyDerivation deviceFullId with
  | none => none
  | some keySlot =>
    let secondData := lockedSecondData keySlot firstData
    let airi := encryptDES_CBC (addYamahaPadding firstData) DES_KEY_DUALSEAL DES_IV
    let aivf := tripleDesEncryptCBC secondData (keyExpansion keySlot)
    let abcf := buildChunk tagABCF [0x00, 0x01]
    let abei := buildChunk tagABEI (buildChunk tagAIRI airi ++ buildChunk tagAIVF aivf)
    some (encryptDES_CBC (addYamahaPadding (abcf ++ abei)) DES_KEY DES_IV)

/-! ## Encrypted CPI builder -/

/-- JS truthiness of a `Blob.iconCode` (absent or the empty string are falsy). -/
def iconTruthy : Option (List Nat) → Bool
  | none => false
  | some s => !s.isEmpty

/-- The `blobParts` list built for one Blob in step 3 of `buildEncryptedCPI`. -/
def blobParts (b : Blob) : List (List Nat) :=
  [buildTextChunk tagEUID b.uid, buildTextChunk tagETIT b.title,
    buildTextChunk tagEEXT b.extension] ++
  (if iconTruthy b.iconCode then [buildTextChunk tagEICO (b.iconCode.getD [])] else []) ++
  [buildChunk tagFBIN b.binaryData]

/-- The serialized form of one BLOB container chunk in the payload. -/
def blobChunk (b : Blob) : List Nat := buildContainerChunk tagBLOB (blobParts b)

/-- The plaintext payload built in step 3 of `buildEncryptedCPI`. -/
def buildPayload (p : Pack) : List Nat :=
  buildTextChunk tagEUID p.uid ++ buildTextChunk tagETIT p.title ++
    (p.blobs.map blobChunk).flatten

/-- `buildEncryptedCPI`.  `deviceFullId` is `none` when the argument is
absent; `rand` supplies the random bytes used on the device-locked path; the
`throw` of the locked path is modelled as `none`. -/
def buildEncryptedCPI (packData : Pack) (modelName : List Nat) (packInstallId : Nat)
    (deviceFullId : Option (List Nat)) (rand : List Nat) : Option (List Nat) :=
  let xpihChunk := buildContainerChunk tagXPIH
    [buildTextChunk tagXMDL modelName, buildChunk tagXPID (u32be packInstallId)]
  let csecData? := match deviceFullId with
    | some s => if s.isEmpty then some CSEC_ENCRYPTED else generateLockedCSEC s rand
    | none => some CSEC_ENCRYPTED
  match csecData? with
  | none => none
  | some csecData =>
    some (xpihChunk ++ buildChunk tagCSEC csecData ++
      encryptDES_CBC (addYamahaPadding (buildPayload packData)) DES_KEY DES_IV)

/-! ## Chunk-sequence view used in the correctness proofs

A well-formed serialized chunk is described by its `(tag, payload)` pair;
`encodeSpecs` is the byte sequence `buildChunk` produces for such a run, and
`chunksOf` is the chunk-record list `readChunks` is expected to return for
it (offsets included). -/

def encodeSpecs (specs : List (List Nat × List Nat)) : List Nat :=
  (specs.map fun s => buildChunk s.1 s.2).flatten

def chunksOf : Nat → List (List Nat × List Nat) → List RChunk
  | _, [] => []
  | off, s :: ss => ⟨s.1, s.2.length, s.2, off⟩ :: chunksOf (off + 8 + s.2.length) ss

/-- The `(tag, payload)` pairs of the sub-chunks of one BLOB container. -/
def blobSubSpecs (b : Blob) : List (List Nat × List Nat) :=
  [(tagEUID, b.uid ++ [0]), (tagETIT, b.title ++ [0]), (tagEEXT, b.extension ++ [0])] ++
  (if iconTruthy b.iconCode then [(tagEICO, b.iconCode.getD [] ++ [0])] else []) ++
  [(tagFBIN, b.binaryData)]

/-- The `(tag, payload)` pairs of the payload chunks following the leading
EUID chunk. -/
def payloadSpecs (p : Pack) : List (List Nat × List Nat) :=
  (tagETIT, p.title ++ [0]) :: p.blobs.map fun b => (tagBLOB, encodeSpecs (blobSubSpecs b))

/-- Well-formedness of a Blob for the round-trip statement: its strings are
NUL-free, its icon code is absent or non-empty and NUL-free, and all
serialized sizes fit in 32 bits. -/
def wfBlob (b : Blob) : Bool :=
  decide (0 ∉ b.uid) && decide (0 ∉ b.title) && decide (0 ∉ b.extension) &&
  (match b.iconCode with
   | none => true
   | some s => !s.isEmpty && decide (0 ∉ s)) &&
  decide (b.uid.length + 1 < 4294967296) && decide (b.title.length + 1 < 4294967296) &&
  decide (b.extension.length + 1 < 4294967296) &&
  decide ((b.iconCode.getD []).length + 1 < 4294967296) &&
  decide (b.binaryData.length < 4294967296) &&
  decide ((encodeSpecs (blobSubSpecs b)).length < 4294967296)

/-- Well-formedness of a Pack for the round-trip statement. -/
def wfPack (p : Pack) : Bool :=
  decide (0 ∉ p.title) && decide (p.title.length + 1 < 4294967296) && p.blobs.all wfBlob

/-! ## Bit-arithmetic helper lemmas -/

theorem two_mul_lor_add (a q r : Nat) (hr : r < 2) :
    2 * a ||| (2 * q + r) = 2 * (a ||| q) + r := by
  have h0 : ∀ x : Nat, Nat.bit false x = 2 * x := fun x => congrFun Nat.bit_false x
  have h1 : ∀ x : Nat, Nat.bit true x = 2 * x + 1 := fun x => congrFun Nat.bit_true x
  interval_cases r
  · rw [Nat.add_zero, ← h0 a, ← h0 q, Nat.lor_bit]
    simp [h0]
  · rw [← h0 a, ← h1 q, Nat.lor_bit]
    simp [h1]

theorem shl_lor_add (k x y : Nat) (hy : y < 2 ^ k) : x <<< k ||| y = x * 2 ^ k + y := by
  induction k generalizing y with
  | zero =>
    interval_cases y
    simp [Nat.shiftLeft_zero]
  | succ k ih =>
    have hp : (2:Nat) ^ (k+1) = 2 * 2 ^ k := by ring
    have hy2 : y / 2 < 2 ^ k := by omega
    have hsh : x <<< (k+1) = 2 * (x <<< k) := by
      rw [Nat.shiftLeft_eq, Nat.shiftLeft_eq, hp]; ring
    have hdm := Nat.div_add_mod y 2
    have hr : y % 2 < 2 := Nat.mod_lt _ (by norm_num)
    calc x <<< (k+1) ||| y = 2 * (x <<< k) ||| (2 * (y / 2) + y % 2) := by rw [hsh, hdm]
      _ = 2 * ((x <<< k) ||| (y / 2)) + y % 2 := two_mul_lor_add _ _ _ hr
      _ = 2 * (x * 2 ^ k + y / 2) + y % 2 := by rw [ih _ hy2]
      _ = x * 2 ^ (k+1) + y := by omega

theorem pack4_eq (a b c d : Nat) (hb : b < 256) (hc : c < 256) (hd : d < 256) :
    a <<< 24 ||| b <<< 16 ||| c <<< 8 ||| d = a * 16777216 + b * 65536 + c * 256 + d := by
  have e8 : (2:Nat) ^ 8 = 256 := by norm_num
  have e16 : (2:Nat) ^ 16 = 65536 := by norm_num
  have e24 : (2:Nat) ^ 24 = 16777216 := by norm_num
  have h1 : c <<< 8 ||| d = c * 256 + d := by
    have h := shl_lor_add 8 c d (by rw [e8]; exact hd)
    rwa [e8] at h
  have hcd : c * 256 + d < 2 ^ 16 := by rw [e16]; omega
  have h2 : b <<< 16 ||| (c * 256 + d) = b * 65536 + (c * 256 + d) := by
    have h := shl_lor_add 16 b _ hcd
    rwa [e16] at h
  have hbcd : b * 65536 + (c * 256 + d) < 2 ^ 24 := by rw [e24]; omega
  have h3 : a <<< 24 ||| (b * 65536 + (c * 256 + d)) =
      a * 16777216 + (b * 65536 + (c * 256 + d)) := by
    have h := shl_lor_add 24 a _ hbcd
    rwa [e24] at h
  rw [Nat.lor_assoc, Nat.lor_assoc, h1, h2, h3]
  omega

theorem and_255_eq_mod (x : Nat) : x &&& 255 = x % 256 := by
  have h := Nat.and_pow_two_sub_one_eq_mod x 8
  norm_num at h
  exact h

theorem shr_xor (a b n : Nat) : (a ^^^ b) >>> n = a >>> n ^^^ b >>> n := by
  apply Nat.eq_of_testBit_eq
  intro i
  simp [Nat.testBit_shiftRight, Nat.testBit_xor]

theorem shl_shr_cancel (t d : Nat) : t <<< d >>> d = t := by
  rw [Nat.shiftLeft_eq, Nat.shiftRight_eq_div_pow]
  exact Nat.mul_div_cancel t (Nat.two_pow_pos d)

theorem xor_xor_cancel (a b t : Nat) : a ^^^ t ^^^ (b ^^^ t) = a ^^^ b := by
  rw [Nat.xor_comm b t, ← Nat.xor_assoc, Nat.xor_assoc a t t, Nat.xor_self, Nat.xor_zero]

theorem shl32_of_le (t d m : Nat) (ht : t ≤ m) (hm : m <<< d < 4294967296) :
    shl32 t d = t <<< d := by
  unfold shl32
  apply Nat.mod_eq_of_lt
  calc t <<< d ≤ m <<< d := by
        rw [Nat.shiftLeft_eq, Nat.shiftLeft_eq]
        exact Nat.mul_le_mul_right _ ht
    _ < _ := hm

theorem dswapA_invol (d m L R : Nat) (hm : m <<< d < 4294967296) :
    dswapA d m (dswapA d m (L, R)) = (L, R) := by
  have hshl : shl32 ((L >>> d ^^^ R) &&& m) d = ((L >>> d ^^^ R) &&& m) <<< d :=
    shl32_of_le _ _ _ Nat.and_le_right hm
  simp only [dswapA, hshl]
  have key : ((L ^^^ ((L >>> d ^^^ R) &&& m) <<< d) >>> d ^^^ (R ^^^ ((L >>> d ^^^ R) &&& m)))
      &&& m = (L >>> d ^^^ R) &&& m := by
    rw [shr_xor, shl_shr_cancel, xor_xor_cancel]
  rw [key, hshl]
  simp only [Prod.mk.injEq]
  exact ⟨Nat.xor_cancel_right _ _, Nat.xor_cancel_right _ _⟩

theorem dswapB_invol (d m L R : Nat) (hm : m <<< d < 4294967296) :
    dswapB d m (dswapB d m (L, R)) = (L, R) := by
  have hshl : shl32 ((R >>> d ^^^ L) &&& m) d = ((R >>> d ^^^ L) &&& m) <<< d :=
    shl32_of_le _ _ _ Nat.and_le_right hm
  simp only [dswapB, hshl]
  have key : ((R ^^^ ((R >>> d ^^^ L) &&& m) <<< d) >>> d ^^^ (L ^^^ ((R >>> d ^^^ L) &&& m)))
      &&& m = (R >>> d ^^^ L) &&& m := by
    rw [shr_xor, shl_shr_cancel, xor_xor_cancel]
  rw [key, hshl]
  simp only [Prod.mk.injEq]
  exact ⟨Nat.xor_cancel_right _ _, Nat.xor_cancel_right _ _⟩

theorem finalPerm_initialPerm (L R : Nat) :
    finalPerm (initialPerm L R).1 (initialPerm L R).2 = (L, R) := by
  unfold initialPerm finalPerm
  rw [dswapA_invol 1 0x55555555 _ _ (by decide),
    dswapB_invol 8 0x00FF00FF _ _ (by decide),
    dswapB_invol 2 0x33333333 _ _ (by decide),
    dswapA_invol 16 0x0000FFFF _ _ (by decide),
    dswapA_invol 4 0x0F0F0F0F _ _ (by decide)]

theorem initialPerm_finalPerm (L R : Nat) :
    initialPerm (finalPerm L R).1 (finalPerm L R).2 = (L, R) := by
  unfold initialPerm finalPerm
  rw [dswapA_invol 4 0x0F0F0F0F _ _ (by decide),
    dswapA_invol 16 0x0000FFFF _ _ (by decide),
    dswapB_invol 2 0x33333333 _ _ (by decide),
    dswapB_invol 8 0x00FF00FF _ _ (by decide),
    dswapA_invol 1 0x55555555 _ _ (by decide)]

theorem shl32_lt (x d : Nat) : shl32 x d < 4294967296 := Nat.mod_lt _ (by norm_num)

theorem xor_lt_32 {a b : Nat} (ha : a < 4294967296) (hb : b < 4294967296) :
    a ^^^ b < 4294967296 := by
  have e : (4294967296:Nat) = 2 ^ 32 := by norm_num
  rw [e] at ha hb ⊢
  exact Nat.xor_lt_two_pow ha hb

theorem and_mask_lt {a m : Nat} (hm : m < 4294967296) : a &&& m < 4294967296 :=
  Nat.lt_of_le_of_lt Nat.and_le_right hm

theorem dswapA_lt (d m : Nat) (p : Nat × Nat) (hm : m < 4294967296)
    (h1 : p.1 < 4294967296) (h2 : p.2 < 4294967296) :
    (dswapA d m p).1 < 4294967296 ∧ (dswapA d m p).2 < 4294967296 := by
  simp only [dswapA]
  exact ⟨xor_lt_32 h1 (shl32_lt _ _), xor_lt_32 h2 (and_mask_lt hm)⟩

theorem dswapB_lt (d m : Nat) (p : Nat × Nat) (hm : m < 4294967296)
    (h1 : p.1 < 4294967296) (h2 : p.2 < 4294967296) :
    (dswapB d m p).1 < 4294967296 ∧ (dswapB d m p).2 < 4294967296 := by
  simp only [dswapB]
  exact ⟨xor_lt_32 h1 (and_mask_lt hm), xor_lt_32 h2 (shl32_lt _ _)⟩

theorem initialPerm_lt (L R : Nat) (hL : L < 4294967296) (hR : R < 4294967296) :
    (initialPerm L R).1 < 4294967296 ∧ (initialPerm L R).2 < 4294967296 := by
  unfold initialPerm
  have s1 := dswapA_lt 4 0x0F0F0F0F (L, R) (by norm_num) hL hR
  have s2 := dswapA_lt 16 0x0000FFFF _ (by norm_num) s1.1 s1.2
  have s3 := dswapB_lt 2 0x33333333 _ (by norm_num) s2.1 s2.2
  have s4 := dswapB_lt 8 0x00FF00FF _ (by norm_num) s3.1 s3.2
  exact dswapA_lt 1 0x55555555 _ (by norm_num) s4.1 s4.2

theorem finalPerm_lt (L R : Nat) (hL : L < 4294967296) (hR : R < 4294967296) :
    (finalPerm L R).1 < 4294967296 ∧ (finalPerm L R).2 < 4294967296 := by
  unfold finalPerm
  have s1 := dswapA_lt 1 0x55555555 (L, R) (by norm_num) hL hR
  have s2 := dswapB_lt 8 0x00FF00FF _ (by norm_num) s1.1 s1.2
  have s3 := dswapB_lt 2 0x33333333 _ (by norm_num) s2.1 s2.2
  have s4 := dswapA_lt 16 0x0000FFFF _ (by norm_num) s3.1 s3.2
  exact dswapA_lt 4 0x0F0F0F0F _ (by norm_num) s4.1 s4.2

theorem getD_lt_of_forall {l : List Nat} {i b : Nat} (h : ∀ x ∈ l, x < b) (hb : 0 < b) :
    l.getD i 0 < b := by
  rw [List.getD_eq_getElem?_getD]
  cases hg : l[i]? with
  | none => simpa using hb
  | some v => simpa using h v (List.getElem?_mem hg)

theorem desF_lt (R : Nat) (K : Nat × Nat) : desF R K < 4294967296 := by
  have b1 : ∀ x ∈ SP1, x < 4294967296 := by decide
  have b2 : ∀ x ∈ SP2, x < 4294967296 := by decide
  have b3 : ∀ x ∈ SP3, x < 4294967296 := by decide
  have b4 : ∀ x ∈ SP4, x < 4294967296 := by decide
  have b5 : ∀ x ∈ SP5, x < 4294967296 := by decide
  have b6 : ∀ x ∈ SP6, x < 4294967296 := by decide
  have b7 : ∀ x ∈ SP7, x < 4294967296 := by decide
  have b8 : ∀ x ∈ SP8, x < 4294967296 := by decide
  have hb : (0:Nat) < 4294967296 := by norm_num
  unfold desF
  exact xor_lt_32 (xor_lt_32 (xor_lt_32 (xor_lt_32 (xor_lt_32 (xor_lt_32 (xor_lt_32
    (getD_lt_of_forall b1 hb) (getD_lt_of_forall b2 hb)) (getD_lt_of_forall b3 hb))
    (getD_lt_of_forall b4 hb)) (getD_lt_of_forall b5 hb)) (getD_lt_of_forall b6 hb))
    (getD_lt_of_forall b7 hb)) (getD_lt_of_forall b8 hb)

theorem feistelStep_lt (p K : Nat × Nat) (h2 : p.2 < 4294967296) :
    (feistelStep p K).1 < 4294967296 ∧ (feistelStep p K).2 < 4294967296 :=
  ⟨h2, Nat.mod_lt _ (by norm_num)⟩

theorem foldl_feistel_lt (ks : List (Nat × Nat)) (p : Nat × Nat)
    (h1 : p.1 < 4294967296) (h2 : p.2 < 4294967296) :
    (ks.foldl feistelStep p).1 < 4294967296 ∧ (ks.foldl feistelStep p).2 < 4294967296 := by
  induction ks generalizing p with
  | nil => exact ⟨h1, h2⟩
  | cons k ks ih =>
    have h := feistelStep_lt p k h2
    exact ih _ h.1 h.2

theorem feistel_reverse (ks : List (Nat × Nat)) (p : Nat × Nat)
    (h1 : p.1 < 4294967296) (h2 : p.2 < 4294967296) :
    ks.reverse.foldl feistelStep ((ks.foldl feistelStep p).2, (ks.foldl feistelStep p).1) =
      (p.2, p.1) := by
  induction ks using List.reverseRecOn with
  | nil => simp
  | append_singleton l a ih =>
    have hq := foldl_feistel_lt l p h1 h2
    have hqf : desF (l.foldl feistelStep p).2 a < 4294967296 := desF_lt _ _
    have hstep : feistelStep (((l ++ [a]).foldl feistelStep p).2,
        ((l ++ [a]).foldl feistelStep p).1) a =
        ((l.foldl feistelStep p).2, (l.foldl feistelStep p).1) := by
      rw [List.foldl_append]
      simp only [List.foldl_cons, List.foldl_nil, feistelStep]
      have hmod : ((l.foldl feistelStep p).1 ^^^ desF (l.foldl feistelStep p).2 a) %
          4294967296 = (l.foldl feistelStep p).1 ^^^ desF (l.foldl feistelStep p).2 a :=
        Nat.mod_eq_of_lt (xor_lt_32 hq.1 hqf)
      rw [hmod, Nat.xor_cancel_right]
      exact Prod.ext rfl (Nat.mod_eq_of_lt hq.1)
    rw [List.reverse_append, List.reverse_singleton, List.singleton_append,
      List.foldl_cons, hstep]
    exact ih

theorem and255_lt (x : Nat) : x &&& 255 < 256 := by
  rw [and_255_eq_mod]
  exact Nat.mod_lt x (by norm_num)

theorem bytesToLR_lrToBytes_fst (A B : Nat) (hA : A < 4294967296) :
    (bytesToLR (lrToBytes A B) 0).1 = A := by
  have h : (bytesToLR (lrToBytes A B) 0).1 =
      (A >>> 24 &&& 255) <<< 24 ||| (A >>> 16 &&& 255) <<< 16 |||
        (A >>> 8 &&& 255) <<< 8 ||| (A &&& 255) := rfl
  rw [h, pack4_eq _ _ _ _ (and255_lt _) (and255_lt _) (and255_lt _)]
  simp only [and_255_eq_mod, Nat.shiftRight_eq_div_pow]
  norm_num
  omega

theorem bytesToLR_lrToBytes_snd (A B : Nat) (hB : B < 4294967296) :
    (bytesToLR (lrToBytes A B) 0).2 = B := by
  have h : (bytesToLR (lrToBytes A B) 0).2 =
      (B >>> 24 &&& 255) <<< 24 ||| (B >>> 16 &&& 255) <<< 16 |||
        (B >>> 8 &&& 255) <<< 8 ||| (B &&& 255) := rfl
  rw [h, pack4_eq _ _ _ _ (and255_lt _) (and255_lt _) (and255_lt _)]
  simp only [and_255_eq_mod, Nat.shiftRight_eq_div_pow]
  norm_num
  omega

theorem lrToBytes_bytesToLR (b0 b1 b2 b3 b4 b5 b6 b7 : Nat)
    (g0 : b0 < 256) (g1 : b1 < 256) (g2 : b2 < 256) (g3 : b3 < 256)
    (g4 : b4 < 256) (g5 : b5 < 256) (g6 : b6 < 256) (g7 : b7 < 256) :
    lrToBytes (bytesToLR [b0,b1,b2,b3,b4,b5,b6,b7] 0).1
      (bytesToLR [b0,b1,b2,b3,b4,b5,b6,b7] 0).2 = [b0,b1,b2,b3,b4,b5,b6,b7] := by
  have h1 : (bytesToLR [b0,b1,b2,b3,b4,b5,b6,b7] 0).1 =
      b0 * 16777216 + b1 * 65536 + b2 * 256 + b3 := pack4_eq b0 b1 b2 b3 g1 g2 g3
  have h2 : (bytesToLR [b0,b1,b2,b3,b4,b5,b6,b7] 0).2 =
      b4 * 16777216 + b5 * 65536 + b6 * 256 + b7 := pack4_eq b4 b5 b6 b7 g5 g6 g7
  rw [h1, h2]
  simp only [lrToBytes, and_255_eq_mod, Nat.shiftRight_eq_div_pow, List.cons.injEq,
    and_true]
  norm_num
  omega

theorem desBlock_eq (X : List Nat) (sk : List (Nat × Nat)) : desBlock X sk =
    lrToBytes
      (finalPerm (sk.foldl feistelStep (initialPerm (bytesToLR X 0).1 (bytesToLR X 0).2)).2
        (sk.foldl feistelStep (initialPerm (bytesToLR X 0).1 (bytesToLR X 0).2)).1).1
      (finalPerm (sk.foldl feistelStep (initialPerm (bytesToLR X 0).1 (bytesToLR X 0).2)).2
        (sk.foldl feistelStep (initialPerm (bytesToLR X 0).1 (bytesToLR X 0).2)).1).2 := rfl

theorem desDecryptBlock_eq (X : List Nat) (sk : List (Nat × Nat)) : desDecryptBlock X sk =
    lrToBytes
      (finalPerm
        (sk.reverse.foldl feistelStep (initialPerm (bytesToLR X 0).1 (bytesToLR X 0).2)).2
        (sk.reverse.foldl feistelStep (initialPerm (bytesToLR X 0).1 (bytesToLR X 0).2)).1).1
      (finalPerm
        (sk.reverse.foldl feistelStep (initialPerm (bytesToLR X 0).1 (bytesToLR X 0).2)).2
        (sk.reverse.foldl feistelStep (initialPerm (bytesToLR X 0).1 (bytesToLR X 0).2)).1).2 :=
  rfl

theorem des_lr_inv (sk : List (Nat × Nat)) (A B : Nat) (hA : A < 4294967296)
    (hB : B < 4294967296) :
    desDecryptBlock (desBlock (lrToBytes A B) sk) sk = lrToBytes A B := by
  have hip := initialPerm_lt A B hA hB
  have hq := foldl_feistel_lt sk (initialPerm A B) hip.1 hip.2
  have hfp := finalPerm_lt (sk.foldl feistelStep (initialPerm A B)).2
    (sk.foldl feistelStep (initialPerm A B)).1 hq.2 hq.1
  rw [desBlock_eq, bytesToLR_lrToBytes_fst A B hA, bytesToLR_lrToBytes_snd A B hB]
  rw [desDecryptBlock_eq, bytesToLR_lrToBytes_fst _ _ hfp.1, bytesToLR_lrToBytes_snd _ _ hfp.2]
  have hR : sk.reverse.foldl feistelStep
      (initialPerm
        (finalPerm (sk.foldl feistelStep (initialPerm A B)).2
          (sk.foldl feistelStep (initialPerm A B)).1).1
        (finalPerm (sk.foldl feistelStep (initialPerm A B)).2
          (sk.foldl feistelStep (initialPerm A B)).1).2) =
      ((initialPerm A B).2, (initialPerm A B).1) := by
    rw [initialPerm_finalPerm, feistel_reverse sk _ hip.1 hip.2]
  rw [hR]
  have hfin : finalPerm ((initialPerm A B).2, (initialPerm A B).1).2
      ((initialPerm A B).2, (initialPerm A B).1).1 = (A, B) := by
    show finalPerm (initialPerm A B).1 (initialPerm A B).2 = (A, B)
    exact finalPerm_initialPerm A B
  rw [hfin]

/-- C3: for every 8-byte block and every 8-byte key, decrypting the
encryption of the block under the key schedule of the parity-adjusted key
returns the original block. -/
theorem des_decrypt_encrypt_roundtrip (key : List Nat) (b0 b1 b2 b3 b4 b5 b6 b7 : Nat)
    (g0 : b0 < 256) (g1 : b1 < 256) (g2 : b2 < 256) (g3 : b3 < 256)
    (g4 : b4 < 256) (g5 : b5 < 256) (g6 : b6 < 256) (g7 : b7 < 256) :
    desDecryptBlock
      (desBlock [b0,b1,b2,b3,b4,b5,b6,b7] (generateSubKeys (msbParity key)))
      (generateSubKeys (msbParity key)) = [b0,b1,b2,b3,b4,b5,b6,b7] := by
  have hA : (bytesToLR [b0,b1,b2,b3,b4,b5,b6,b7] 0).1 =
      b0 * 16777216 + b1 * 65536 + b2 * 256 + b3 := pack4_eq b0 b1 b2 b3 g1 g2 g3
  have hB : (bytesToLR [b0,b1,b2,b3,b4,b5,b6,b7] 0).2 =
      b4 * 16777216 + b5 * 65536 + b6 * 256 + b7 := pack4_eq b4 b5 b6 b7 g5 g6 g7
  have hA' : (bytesToLR [b0,b1,b2,b3,b4,b5,b6,b7] 0).1 < 4294967296 := by rw [hA]; omega
  have hB' : (bytesToLR [b0,b1,b2,b3,b4,b5,b6,b7] 0).2 < 4294967296 := by rw [hB]; omega
  have heq := lrToBytes_bytesToLR b0 b1 b2 b3 b4 b5 b6 b7 g0 g1 g2 g3 g4 g5 g6 g7
  calc desDecryptBlock
        (desBlock [b0,b1,b2,b3,b4,b5,b6,b7] (generateSubKeys (msbParity key)))
        (generateSubKeys (msbParity key))
      = desDecryptBlock
        (desBlock (lrToBytes (bytesToLR [b0,b1,b2,b3,b4,b5,b6,b7] 0).1
          (bytesToLR [b0,b1,b2,b3,b4,b5,b6,b7] 0).2) (generateSubKeys (msbParity key)))
        (generateSubKeys (msbParity key)) := by rw [heq]
    _ = lrToBytes (bytesToLR [b0,b1,b2,b3,b4,b5,b6,b7] 0).1
        (bytesToLR [b0,b1,b2,b3,b4,b5,b6,b7] 0).2 := des_lr_inv _ _ _ hA' hB'
    _ = [b0,b1,b2,b3,b4,b5,b6,b7] := heq

/-- C3 witness at a concrete block and key. -/
theorem des_decrypt_encrypt_roundtrip_witness :
    desDecryptBlock
      (desBlock [1,2,3,4,5,6,7,255] (generateSubKeys (msbParity [9,8,7,6,5,4,3,2])))
      (generateSubKeys (msbParity [9,8,7,6,5,4,3,2])) = [1,2,3,4,5,6,7,255] :=
  des_decrypt_encrypt_roundtrip [9,8,7,6,5,4,3,2] 1 2 3 4 5 6 7 255
    (by decide) (by decide) (by decide) (by decide)
    (by decide) (by decide) (by decide) (by decide)

/-- C1: encrypting the standard DES test-vector block under the standard
test key (after `msbParity` normalization, which fixes this particular key)
yields the standard ciphertext. -/
theorem des_known_answer :
    desBlock [0x01,0x23,0x45,0x67,0x89,0xAB,0xCD,0xEF]
      (generateSubKeys (msbParity [0x13,0x34,0x57,0x79,0x9B,0xBC,0xDF,0xF1])) =
      [0x85,0xE8,0x13,0x54,0x0F,0x0A,0xB4,0x05] := by decide

theorem list_set_getLast? {l : List Nat} {i v : Nat} (h : i + 1 = l.length) :
    (l.set i v).getLast? = some v := by
  have hi : i < l.length := by omega
  rw [List.getLast?_eq_getElem?, List.length_set]
  have h2 : l.length - 1 = i := by omega
  rw [h2]
  exact List.getElem?_set_self hi

/-- C4: vendor padding appends `8 - (L % 8)` bytes (a full 8 when aligned),
the result's length is a multiple of 8, and its last byte is `L % 8`. -/
theorem yamaha_padding_spec (data : List Nat) :
    (addYamahaPadding data).length % 8 = 0 ∧
    (addYamahaPadding data).length =
      data.length + (if data.length % 8 = 0 then 8 else 8 - data.length % 8) ∧
    (addYamahaPadding data).getLast? = some (data.length % 8) := by
  have hpad : addYamahaPadding data =
      (data ++ List.replicate (if data.length % 8 = 0 then 8 else 8 - data.length % 8) 0).set
        (data.length + (if data.length % 8 = 0 then 8 else 8 - data.length % 8) - 1)
        (data.length % 8) := rfl
  have hpl : 0 < (if data.length % 8 = 0 then 8 else 8 - data.length % 8) := by
    split
    · omega
    · omega
  have hlen : (addYamahaPadding data).length =
      data.length + (if data.length % 8 = 0 then 8 else 8 - data.length % 8) := by
    rw [hpad, List.length_set]
    simp
  refine ⟨?_, hlen, ?_⟩
  · rw [hlen]
    by_cases h : data.length % 8 = 0
    · rw [if_pos h]; omega
    · rw [if_neg h]; omega
  · rw [hpad]
    refine list_set_getLast? ?_
    simp only [List.length_append, List.length_replicate]
    omega

/-- C10: calling `buildEncryptedCPI` with the empty string as device
identifier takes the same constant-CSEC path as an absent identifier and
never fails. -/
theorem buildEncryptedCPI_empty_device (p : Pack) (modelName : List Nat) (id : Nat)
    (rand : List Nat) :
    buildEncryptedCPI p modelName id (some []) rand =
      buildEncryptedCPI p modelName id none rand ∧
    (buildEncryptedCPI p modelName id none rand).isSome = true :=
  ⟨rfl, rfl⟩

/-! ## Chunk-reader lemmas -/

theorem skipGo_ge : ∀ (f : Nat) (buf : List Nat) (pos e : Nat), pos ≤ skipGo f buf pos e := by
  intro f
  induction f with
  | zero => intro buf pos e; exact le_rfl
  | succ f ih =>
    intro buf pos e
    simp only [skipGo]
    by_cases hp : pos < e
    · rw [if_pos hp]
      by_cases ht : isKnownTag buf pos = true
      · rw [if_pos ht]
      · rw [if_neg ht]
        exact le_trans (Nat.le_succ pos) (ih buf (pos+1) e)
    · rw [if_neg hp]

theorem skipGo_of_tag (f : Nat) (buf : List Nat) (pos e : Nat)
    (h : isKnownTag buf pos = true) : skipGo f buf pos e = pos := by
  cases f with
  | zero => rfl
  | succ f =>
    simp only [skipGo]
    by_cases hp : pos < e
    · rw [if_pos hp, if_pos h]
    · rw [if_neg hp]

theorem skipGo_congr : ∀ (f f' : Nat) (buf : List Nat) (pos e : Nat),
    e ≤ pos + f → e ≤ pos + f' → skipGo f buf pos e = skipGo f' buf pos e := by
  intro f
  induction f with
  | zero =>
    intro f' buf pos e h h'
    cases f' with
    | zero => rfl
    | succ f' =>
      simp only [skipGo]
      rw [if_neg (by omega)]
  | succ f ih =>
    intro f' buf pos e h h'
    cases f' with
    | zero =>
      simp only [skipGo]
      rw [if_neg (by omega)]
    | succ f' =>
      simp only [skipGo]
      by_cases hp : pos < e
      · rw [if_pos hp, if_pos hp]
        by_cases ht : isKnownTag buf pos = true
        · rw [if_pos ht, if_pos ht]
        · rw [if_neg ht, if_neg ht]
          exact ih f' buf (pos+1) e (by omega) (by omega)
      · rw [if_neg hp, if_neg hp]

theorem skipToNextTag_ge (buf : List Nat) (pos e : Nat) : pos ≤ skipToNextTag buf pos e :=
  skipGo_ge _ buf pos e

theorem skipToNextTag_spec (buf : List Nat) (pos e : Nat) :
    (isKnownTag buf (skipToNextTag buf pos e) = true ∧ skipToNextTag buf pos e < e) ∨
      e ≤ skipToNextTag buf pos e := by
  have main : ∀ (f : Nat) (buf : List Nat) (pos e : Nat), e ≤ pos + f →
      (isKnownTag buf (skipGo f buf pos e) = true ∧ skipGo f buf pos e < e) ∨
        e ≤ skipGo f buf pos e := by
    intro f
    induction f with
    | zero =>
      intro buf pos e h
      right
      simpa [skipGo] using h
    | succ f ih =>
      intro buf pos e h
      simp only [skipGo]
      by_cases hp : pos < e
      · rw [if_pos hp]
        by_cases ht : isKnownTag buf pos = true
        · rw [if_pos ht]
          exact Or.inl ⟨ht, hp⟩
        · rw [if_neg ht]
          exact ih buf (pos+1) e (by omega)
      · rw [if_neg hp]
        right
        omega
  exact main (e - pos) buf pos e (by omega)

theorem skipToNextTag_past (buf : List Nat) (e : Nat) :
    ∀ (g pos : Nat), (∀ j, j < g → isKnownTag buf (pos + j) = false) → pos + g ≤ e →
    skipToNextTag buf pos e = skipToNextTag buf (pos + g) e := by
  intro g
  induction g with
  | zero => intro pos _ _; simp
  | succ g ih =>
    intro pos htl hle
    have h0 : isKnownTag buf pos = false := by simpa using htl 0 (by omega)
    have hp : pos < e := by omega
    have step : skipToNextTag buf pos e = skipToNextTag buf (pos + 1) e := by
      unfold skipToNextTag
      have hf : e - pos = (e - pos - 1) + 1 := by omega
      rw [hf]
      simp only [skipGo]
      rw [if_pos hp, if_neg (by simp [h0])]
      exact skipGo_congr _ _ buf (pos+1) e (by omega) (by omega)
    have htl' : ∀ j, j < g → isKnownTag buf (pos + 1 + j) = false := by
      intro j hj
      have := htl (j+1) (by omega)
      rwa [show pos + (j+1) = pos + 1 + j from by omega] at this
    rw [step, ih (pos + 1) htl' (by omega), show pos + 1 + g = pos + (g+1) from by omega]

theorem readGo_congr : ∀ (f f' : Nat) (buf : List Nat) (pos e : Nat),
    e ≤ pos + f → e ≤ pos + f' → readGo f buf pos e = readGo f' buf pos e := by
  intro f
  induction f with
  | zero =>
    intro f' buf pos e h h'
    cases f' with
    | zero => rfl
    | succ f' =>
      simp only [readGo]
      rw [if_neg (by omega)]
  | succ f ih =>
    intro f' buf pos e h h'
    cases f' with
    | zero =>
      simp only [readGo]
      rw [if_neg (by omega)]
    | succ f' =>
      simp only [readGo]
      by_cases h8 : pos + 8 ≤ e
      · rw [if_pos h8, if_pos h8]
        by_cases hp8 : skipToNextTag buf pos e + 8 ≤ e
        · rw [if_pos hp8, if_pos hp8]
          by_cases hid : jsSlice buf (skipToNextTag buf pos e)
              (skipToNextTag buf pos e + 4) ∈ knownTags
          · rw [if_pos hid, if_pos hid]
            congr 1
            have hge : pos ≤ skipToNextTag buf pos e := skipToNextTag_ge buf pos e
            have hd1 : skipToNextTag buf pos e + 8 ≤
                min (skipToNextTag buf pos e + 8 +
                  readUint32BE buf (skipToNextTag buf pos e + 4)) e :=
              le_min (by omega) hp8
            have hd2 : min (skipToNextTag buf pos e + 8 +
                readUint32BE buf (skipToNextTag buf pos e + 4)) e ≤ e := min_le_right _ _
            exact ih f' buf _ e (by omega) (by omega)
          · rw [if_neg hid, if_neg hid]
        · rw [if_neg hp8, if_neg hp8]
      · rw [if_neg h8, if_neg h8]

theorem readChunks_stop (buf : List Nat) (pos e : Nat) (h : ¬(pos + 8 ≤ e)) :
    readChunks buf pos e = [] := by
  unfold readChunks
  cases hf : e - pos with
  | zero => rfl
  | succ k =>
    simp only [readGo]
    rw [if_neg h]

theorem isKnownTag_mem {buf : List Nat} {pos : Nat} (h : isKnownTag buf pos = true) :
    jsSlice buf pos (pos + 4) ∈ knownTags := by
  unfold isKnownTag at h
  by_cases hl : buf.length < pos + 4
  · rw [if_pos hl] at h
    exact absurd h (by simp)
  · rw [if_neg hl] at h
    exact of_decide_eq_true h

theorem readChunks_unfold (buf : List Nat) (pos e : Nat) (h8 : pos + 8 ≤ e) :
    readChunks buf pos e =
      if skipToNextTag buf pos e + 8 ≤ e then
        (if jsSlice buf (skipToNextTag buf pos e) (skipToNextTag buf pos e + 4) ∈ knownTags then
          RChunk.mk (jsSlice buf (skipToNextTag buf pos e) (skipToNextTag buf pos e + 4))
            (readUint32BE buf (skipToNextTag buf pos e + 4))
            (jsSlice buf (skipToNextTag buf pos e + 8)
              (min (skipToNextTag buf pos e + 8 +
                readUint32BE buf (skipToNextTag buf pos e + 4)) e))
            (skipToNextTag buf pos e) ::
          readChunks buf
            (min (skipToNextTag buf pos e + 8 +
              readUint32BE buf (skipToNextTag buf pos e + 4)) e) e
        else [])
      else [] := by
  have hfuel : e - pos = (e - pos - 1) + 1 := by omega
  unfold readChunks
  rw [hfuel]
  simp only [readGo]
  rw [if_pos h8]
  by_cases hp8 : skipToNextTag buf pos e + 8 ≤ e
  · rw [if_pos hp8, if_pos hp8]
    by_cases hid : jsSlice buf (skipToNextTag buf pos e) (skipToNextTag buf pos e + 4) ∈ knownTags
    · rw [if_pos hid, if_pos hid]
      congr 1
      have hge : pos ≤ skipToNextTag buf pos e := skipToNextTag_ge buf pos e
      have hd1 : skipToNextTag buf pos e + 8 ≤
          min (skipToNextTag buf pos e + 8 +
            readUint32BE buf (skipToNextTag buf pos e + 4)) e :=
        le_min (by omega) hp8
      have hd2 : min (skipToNextTag buf pos e + 8 +
          readUint32BE buf (skipToNextTag buf pos e + 4)) e ≤ e := min_le_right _ _
      exact readGo_congr _ _ buf _ e (by omega) (by omega)
    · rw [if_neg hid, if_neg hid]
  · rw [if_neg hp8, if_neg hp8]

theorem readChunks_cons (buf : List Nat) (pos e : Nat)
    (htag : isKnownTag buf pos = true) (h8 : pos + 8 ≤ e) :
    readChunks buf pos e =
      RChunk.mk (jsSlice buf pos (pos + 4)) (readUint32BE buf (pos + 4))
        (jsSlice buf (pos + 8) (min (pos + 8 + readUint32BE buf (pos + 4)) e)) pos ::
      readChunks buf (min (pos + 8 + readUint32BE buf (pos + 4)) e) e := by
  have hskip : skipToNextTag buf pos e = pos := skipGo_of_tag _ buf pos e htag
  rw [readChunks_unfold buf pos e h8, hskip, if_pos h8, if_pos (isKnownTag_mem htag)]

theorem readChunks_skip_to (buf : List Nat) (pos e : Nat) (h8 : pos + 8 ≤ e) :
    readChunks buf pos e = readChunks buf (skipToNextTag buf pos e) e := by
  rcases skipToNextTag_spec buf pos e with ⟨ht, _⟩ | hend
  · by_cases hs8 : skipToNextTag buf pos e + 8 ≤ e
    · rw [readChunks_unfold buf pos e h8, if_pos hs8, if_pos (isKnownTag_mem ht),
        readChunks_cons buf (skipToNextTag buf pos e) e ht hs8]
    · rw [readChunks_unfold buf pos e h8, if_neg hs8, readChunks_stop buf _ e hs8]
  · have hs8 : ¬(skipToNextTag buf pos e + 8 ≤ e) := by omega
    rw [readChunks_unfold buf pos e h8, if_neg hs8, readChunks_stop buf _ e hs8]

theorem readChunks_skip_region (buf : List Nat) (pos q e : Nat) (hpq : pos ≤ q) (hqe : q ≤ e)
    (htl : ∀ j, pos + j < q → isKnownTag buf (pos + j) = false) :
    readChunks buf pos e = readChunks buf q e := by
  have hpast : skipToNextTag buf pos e = skipToNextTag buf q e := by
    rw [skipToNextTag_past buf e (q - pos) pos (fun j hj => htl j (by omega)) (by omega),
      show pos + (q - pos) = q from by omega]
  by_cases h8 : pos + 8 ≤ e
  · by_cases hq8 : q + 8 ≤ e
    · rw [readChunks_skip_to buf pos e h8, readChunks_skip_to buf q e hq8, hpast]
    · rw [readChunks_stop buf q e hq8, readChunks_skip_to buf pos e h8, hpast]
      exact readChunks_stop buf _ e (by have := skipToNextTag_ge buf q e; omega)
  · have hq8 : ¬(q + 8 ≤ e) := by omega
    rw [readChunks_stop buf pos e h8, readChunks_stop buf q e hq8]

theorem knownTags_length : ∀ t ∈ knownTags, t.length = 4 := by decide

theorem tag4_of_length {id : List Nat} (h : id.length = 4) : tag4 id = id := by
  unfold tag4
  rw [h]
  have ht : id.take 4 = id := List.take_of_length_le (by omega)
  simp [ht]

theorem buildChunk_length (t d : List Nat) (h : t.length = 4) :
    (buildChunk t d).length = 8 + d.length := by
  simp only [buildChunk, tag4_of_length h, u32be, List.length_append, List.length_cons,
    List.length_nil, h]

theorem jsSlice_at (A X Y : List Nat) :
    jsSlice (A ++ (X ++ Y)) A.length (A.length + X.length) = X := by
  unfold jsSlice
  rw [show A.length + X.length - A.length = X.length from by omega]
  rw [List.drop_left]
  exact List.take_left X Y

theorem isKnownTag_at (A T R : List Nat) (hT : T ∈ knownTags) :
    isKnownTag (A ++ (T ++ R)) A.length = true := by
  have ht4 : T.length = 4 := knownTags_length T hT
  unfold isKnownTag
  rw [if_neg (by simp [ht4])]
  have hsl : jsSlice (A ++ (T ++ R)) A.length (A.length + 4) = T := by
    rw [← ht4]
    exact jsSlice_at A T R
  rw [hsl]
  exact decide_eq_true hT

theorem readU32_at (X Y : List Nat) (n : Nat) (hn : n < 4294967296) :
    readUint32BE (X ++ (u32be n ++ Y)) X.length = n := by
  have g : ∀ i, getB (X ++ (u32be n ++ Y)) (X.length + i) = getB (u32be n ++ Y) i := by
    intro i
    unfold getB
    rw [List.getD_append_right _ _ _ _ (by omega)]
    congr 1
    omega
  unfold readUint32BE
  rw [show getB (X ++ (u32be n ++ Y)) X.length = getB (u32be n ++ Y) 0 from by simpa using g 0,
    g 1, g 2, g 3]
  have e0 : getB (u32be n ++ Y) 0 = n >>> 24 &&& 255 := rfl
  have e1 : getB (u32be n ++ Y) 1 = n >>> 16 &&& 255 := rfl
  have e2 : getB (u32be n ++ Y) 2 = n >>> 8 &&& 255 := rfl
  have e3 : getB (u32be n ++ Y) 3 = n &&& 255 := rfl
  rw [e0, e1, e2, e3, pack4_eq _ _ _ _ (and255_lt _) (and255_lt _) (and255_lt _)]
  simp only [and_255_eq_mod, Nat.shiftRight_eq_div_pow]
  norm_num
  omega

theorem readChunks_encode : ∀ (specs : List (List Nat × List Nat)) (A buf : List Nat),
    buf = A ++ encodeSpecs specs →
    (∀ s ∈ specs, s.1 ∈ knownTags ∧ s.2.length < 4294967296) →
    readChunks buf A.length buf.length = chunksOf A.length specs := by
  intro specs
  induction specs with
  | nil =>
    intro A buf hbuf _
    subst hbuf
    rw [readChunks_stop _ _ _ (by simp [encodeSpecs])]
    rfl
  | cons s ss ih =>
    intro A buf hbuf hwf
    obtain ⟨hmem, hlen⟩ := hwf s (List.mem_cons_self s ss)
    have ht4 : s.1.length = 4 := knownTags_length s.1 hmem
    have harr : buf = A ++ (s.1 ++ (u32be s.2.length ++ (s.2 ++ encodeSpecs ss))) := by
      rw [hbuf]
      simp [encodeSpecs, buildChunk, tag4_of_length ht4, List.append_assoc]
    have htag : isKnownTag buf A.length = true := by
      rw [harr]
      exact isKnownTag_at A s.1 _ hmem
    have hsz : readUint32BE buf (A.length + 4) = s.2.length := by
      have harr2 : buf = (A ++ s.1) ++ (u32be s.2.length ++ (s.2 ++ encodeSpecs ss)) := by
        rw [harr]; simp [List.append_assoc]
      have h := readU32_at (A ++ s.1) (s.2 ++ encodeSpecs ss) s.2.length hlen
      rw [← harr2] at h
      simpa [ht4] using h
    have hid : jsSlice buf A.length (A.length + 4) = s.1 := by
      rw [harr, ← ht4]
      exact jsSlice_at A s.1 _
    have hdata : jsSlice buf (A.length + 8) (A.length + 8 + s.2.length) = s.2 := by
      have harr3 : buf = (A ++ s.1 ++ u32be s.2.length) ++ (s.2 ++ encodeSpecs ss) := by
        rw [harr]; simp [List.append_assoc]
      have h := jsSlice_at (A ++ s.1 ++ u32be s.2.length) s.2 (encodeSpecs ss)
      rw [← harr3] at h
      simpa [ht4, u32be, Nat.add_assoc] using h
    have hblen : buf.length = A.length + 8 + s.2.length + (encodeSpecs ss).length := by
      rw [harr]
      simp [ht4, u32be]
      omega
    have h8 : A.length + 8 ≤ buf.length := by omega
    have hmin : min (A.length + 8 + readUint32BE buf (A.length + 4)) buf.length =
        A.length + 8 + s.2.length := by
      rw [hsz]
      exact min_eq_left (by omega)
    rw [readChunks_cons buf A.length buf.length htag h8, hmin, hsz, hid, hdata]
    have hA' : (A ++ buildChunk s.1 s.2).length = A.length + 8 + s.2.length := by
      simp [buildChunk_length s.1 s.2 ht4]
      omega
    have hbuf' : buf = (A ++ buildChunk s.1 s.2) ++ encodeSpecs ss := by
      rw [hbuf]
      simp [encodeSpecs, List.append_assoc]
    have htail := ih (A ++ buildChunk s.1 s.2) buf hbuf'
      (fun x hx => hwf x (List.mem_cons_of_mem _ hx))
    rw [hA'] at htail
    rw [htail]
    rfl

theorem jsSlice_length_eq (buf : List Nat) (a b : Nat) :
    (jsSlice buf a b).length = min (b - a) (buf.length - a) := by
  simp [jsSlice]

theorem readGo_safe : ∀ (f : Nat) (buf : List Nat) (pos e : Nat) (c : RChunk),
    c ∈ readGo f buf pos e →
    c.id ∈ knownTags ∧ pos ≤ c.offset ∧ c.offset + 8 ≤ e ∧
      c.offset + 8 + c.data.length ≤ e ∧ c.data.length ≤ c.size := by
  intro f
  induction f with
  | zero => intro buf pos e c hc; simp [readGo] at hc
  | succ f ih =>
    intro buf pos e c hc
    simp only [readGo] at hc
    by_cases h8 : pos + 8 ≤ e
    · rw [if_pos h8] at hc
      by_cases hp8 : skipToNextTag buf pos e + 8 ≤ e
      · rw [if_pos hp8] at hc
        by_cases hid : jsSlice buf (skipToNextTag buf pos e)
            (skipToNextTag buf pos e + 4) ∈ knownTags
        · rw [if_pos hid] at hc
          rcases List.mem_cons.mp hc with rfl | htl
          · refine ⟨hid, skipToNextTag_ge buf pos e, hp8, ?_, ?_⟩
            · have hl := jsSlice_length_eq buf (skipToNextTag buf pos e + 8)
                (min (skipToNextTag buf pos e + 8 +
                  readUint32BE buf (skipToNextTag buf pos e + 4)) e)
              have hm : min (skipToNextTag buf pos e + 8 +
                  readUint32BE buf (skipToNextTag buf pos e + 4)) e ≤ e := min_le_right _ _
              simp only [RChunk.mk.injEq] at hl ⊢
              omega
            · have hl := jsSlice_length_eq buf (skipToNextTag buf pos e + 8)
                (min (skipToNextTag buf pos e + 8 +
                  readUint32BE buf (skipToNextTag buf pos e + 4)) e)
              have hm : min (skipToNextTag buf pos e + 8 +
                  readUint32BE buf (skipToNextTag buf pos e + 4)) e ≤
                  skipToNextTag buf pos e + 8 +
                    readUint32BE buf (skipToNextTag buf pos e + 4) := min_le_left _ _
              simp only [RChunk.mk.injEq] at hl ⊢
              omega
          · have h := ih buf _ e c htl
            have hge : pos ≤ skipToNextTag buf pos e := skipToNextTag_ge buf pos e
            have hd1 : skipToNextTag buf pos e + 8 ≤
                min (skipToNextTag buf pos e + 8 +
                  readUint32BE buf (skipToNextTag buf pos e + 4)) e :=
              le_min (by omega) hp8
            exact ⟨h.1, by omega, h.2.2.1, h.2.2.2.1, h.2.2.2.2⟩
        · rw [if_neg hid] at hc
          simp at hc
      · rw [if_neg hp8] at hc
        simp at hc
    · rw [if_neg h8] at hc
      simp at hc

/-- C7: `readChunks` is total and returns only chunks whose tag is in the
recognized vocabulary and whose payload lies within the `[start, end)`
bounds (payloads are clipped, so a declared length past the container's end
never produces an out-of-range read). -/
theorem readChunks_safety (buf : List Nat) (s e : Nat) (c : RChunk)
    (hc : c ∈ readChunks buf s e) :
    c.id ∈ knownTags ∧ s ≤ c.offset ∧ c.offset + 8 ≤ e ∧
      c.offset + 8 + c.data.length ≤ e ∧ c.data.length ≤ c.size :=
  readGo_safe _ buf s e c hc

/-- C7 witness at a concrete buffer. -/
theorem readChunks_safety_witness :
    RChunk.mk tagCSEC 1 [9] 0 ∈ readChunks (buildChunk tagCSEC [9]) 0 9 ∧
      ((RChunk.mk tagCSEC 1 [9] 0).id ∈ knownTags ∧
        0 ≤ (RChunk.mk tagCSEC 1 [9] 0).offset ∧
        (RChunk.mk tagCSEC 1 [9] 0).offset + 8 ≤ 9 ∧
        (RChunk.mk tagCSEC 1 [9] 0).offset + 8 + (RChunk.mk tagCSEC 1 [9] 0).data.length ≤ 9 ∧
        (RChunk.mk tagCSEC 1 [9] 0).data.length ≤ (RChunk.mk tagCSEC 1 [9] 0).size) :=
  ⟨by decide, readChunks_safety (buildChunk tagCSEC [9]) 0 9 (RChunk.mk tagCSEC 1 [9] 0)
    (by decide)⟩

theorem wfBlob_props (b : Blob) (h : wfBlob b = true) :
    0 ∉ b.uid ∧ 0 ∉ b.title ∧ 0 ∉ b.extension ∧
    (∀ s, b.iconCode = some s → s ≠ [] ∧ 0 ∉ s) ∧
    b.uid.length + 1 < 4294967296 ∧ b.title.length + 1 < 4294967296 ∧
    b.extension.length + 1 < 4294967296 ∧
    (b.iconCode.getD []).length + 1 < 4294967296 ∧
    b.binaryData.length < 4294967296 ∧
    (encodeSpecs (blobSubSpecs b)).length < 4294967296 := by
  simp only [wfBlob, Bool.and_eq_true, decide_eq_true_eq] at h
  obtain ⟨⟨⟨⟨⟨⟨⟨⟨⟨h1, h2⟩, h3⟩, h4⟩, h5⟩, h6⟩, h7⟩, h8⟩, h9⟩, h10⟩ := h
  refine ⟨h1, h2, h3, ?_, h5, h6, h7, h8, h9, h10⟩
  intro s hs
  rw [hs] at h4
  simp only [Bool.and_eq_true, Bool.not_eq_true', decide_eq_true_eq] at h4
  exact ⟨by simpa [List.isEmpty_iff] using h4.1, h4.2⟩

theorem wfPack_props (p : Pack) (h : wfPack p = true) :
    0 ∉ p.title ∧ p.title.length + 1 < 4294967296 ∧ ∀ b ∈ p.blobs, wfBlob b = true := by
  simp only [wfPack, Bool.and_eq_true, decide_eq_true_eq, List.all_eq_true] at h
  exact ⟨h.1.1, h.1.2, h.2⟩

theorem stripNul_clean {l : List Nat} (h : 0 ∉ l) : stripNul (l ++ [0]) = l := by
  unfold stripNul
  rw [List.filter_append]
  have h1 : List.filter (fun b => decide (b ≠ 0)) [0] = [] := by decide
  have h2 : List.filter (fun b => decide (b ≠ 0)) l = l :=
    List.filter_eq_self.mpr (fun a ha => decide_eq_true (fun h0 => h (h0 ▸ ha)))
  rw [h1, h2, List.append_nil]

theorem blobParts_flatten (b : Blob) :
    (blobParts b).flatten = encodeSpecs (blobSubSpecs b) := by
  by_cases hic : iconTruthy b.iconCode = true
  · simp [blobParts, blobSubSpecs, encodeSpecs, hic, buildTextChunk, List.append_assoc]
  · simp [blobParts, blobSubSpecs, encodeSpecs, hic, buildTextChunk, List.append_assoc]

theorem buildPayload_eq (p : Pack) :
    buildPayload p = buildTextChunk tagEUID p.uid ++ encodeSpecs (payloadSpecs p) := by
  have hone : ∀ b : Blob, blobChunk b = buildChunk tagBLOB (encodeSpecs (blobSubSpecs b)) := by
    intro b
    simp [blobChunk, buildContainerChunk, blobParts_flatten]
  have hfn : blobChunk = fun b => buildChunk tagBLOB (encodeSpecs (blobSubSpecs b)) :=
    funext hone
  simp [buildPayload, payloadSpecs, encodeSpecs, hfn, buildTextChunk, List.map_map,
    List.append_assoc, Function.comp_def]

theorem payload_chunks (p : Pack) (hwf : wfPack p = true)
    (hclean : ∀ j, j < p.uid.length + 1 → isKnownTag (buildPayload p) (8 + j) = false) :
    readChunks (buildPayload p) 8 (buildPayload p).length =
      chunksOf (9 + p.uid.length) (payloadSpecs p) := by
  obtain ⟨ht0, htl, hbl⟩ := wfPack_props p hwf
  have hAlen : (buildTextChunk tagEUID p.uid).length = 9 + p.uid.length := by
    show (buildChunk tagEUID (p.uid ++ [0])).length = 9 + p.uid.length
    rw [buildChunk_length tagEUID _ (by decide)]
    simp
    omega
  have hsplit : buildPayload p = buildTextChunk tagEUID p.uid ++ encodeSpecs (payloadSpecs p) :=
    buildPayload_eq p
  have hwfspecs : ∀ s ∈ payloadSpecs p, s.1 ∈ knownTags ∧ s.2.length < 4294967296 := by
    intro s hs
    simp only [payloadSpecs, List.mem_cons, List.mem_map] at hs
    rcases hs with rfl | ⟨b, hb, rfl⟩
    · refine ⟨show tagETIT ∈ knownTags from by decide, ?_⟩
      simp only [List.length_append, List.length_cons, List.length_nil]
      omega
    · exact ⟨show tagBLOB ∈ knownTags from by decide,
        (wfBlob_props b (hbl b hb)).2.2.2.2.2.2.2.2.2⟩
  have hq : 9 + p.uid.length ≤ (buildPayload p).length := by
    rw [hsplit, List.length_append, hAlen]
    omega
  have hregion : readChunks (buildPayload p) 8 (buildPayload p).length =
      readChunks (buildPayload p) (9 + p.uid.length) (buildPayload p).length := by
    apply readChunks_skip_region _ _ _ _ (by omega) hq
    intro j hj
    exact hclean j (by omega)
  rw [hregion]
  have henc := readChunks_encode (payloadSpecs p) (buildTextChunk tagEUID p.uid)
    (buildPayload p) hsplit hwfspecs
  rw [hAlen] at henc
  exact henc

theorem parseBlobEntry_eq (b : Blob) (n off : Nat) (hwf : wfBlob b = true) :
    parseBlobEntry (RChunk.mk tagBLOB n (encodeSpecs (blobSubSpecs b)) off) = b := by
  obtain ⟨h1, h2, h3, hicon, l1, l2, l3, l4, l5, l6⟩ := wfBlob_props b hwf
  show (readChunks (encodeSpecs (blobSubSpecs b)) 0
    (encodeSpecs (blobSubSpecs b)).length).foldl parseBlobStep ⟨[], [], [], none, []⟩ = b
  by_cases hic : iconTruthy b.iconCode = true
  · obtain ⟨s, hio⟩ : ∃ s, b.iconCode = some s := by
      cases hio : b.iconCode with
      | none => rw [hio] at hic; simp [iconTruthy] at hic
      | some s => exact ⟨s, rfl⟩
    obtain ⟨hsne, hsnul⟩ := hicon s hio
    have hie : iconTruthy (some s) = true := by
      simp [iconTruthy, List.isEmpty_iff, hsne]
    have hspecs : blobSubSpecs b =
        [(tagEUID, b.uid ++ [0]), (tagETIT, b.title ++ [0]), (tagEEXT, b.extension ++ [0]),
         (tagEICO, s ++ [0]), (tagFBIN, b.binaryData)] := by
      simp [blobSubSpecs, hio, hie]
    have hchunks : readChunks (encodeSpecs (blobSubSpecs b)) 0
        (encodeSpecs (blobSubSpecs b)).length = chunksOf 0 (blobSubSpecs b) := by
      have h := readChunks_encode (blobSubSpecs b) [] (encodeSpecs (blobSubSpecs b))
        (by simp) ?_
      · simpa using h
      · rw [hspecs]
        intro x hx
        simp only [List.mem_cons, List.not_mem_nil, or_false] at hx
        have hgd : (b.iconCode.getD []).length = s.length := by rw [hio]; rfl
        rcases hx with rfl | rfl | rfl | rfl | rfl
        · exact ⟨show tagEUID ∈ knownTags from by decide, by simp; omega⟩
        · exact ⟨show tagETIT ∈ knownTags from by decide, by simp; omega⟩
        · exact ⟨show tagEEXT ∈ knownTags from by decide, by simp; omega⟩
        · exact ⟨show tagEICO ∈ knownTags from by decide, by simp; omega⟩
        · exact ⟨show tagFBIN ∈ knownTags from by decide, l5⟩
    rw [hchunks, hspecs]
    simp only [chunksOf, List.foldl_cons, List.foldl_nil]
    simp only [parseBlobStep]
    simp only [show (tagEUID = tagEUID) = True from by simp,
      show (tagETIT = tagEUID) = False from by decide,
      show (tagETIT = tagETIT) = True from by simp,
      show (tagEEXT = tagEUID) = False from by decide,
      show (tagEEXT = tagETIT) = False from by decide,
      show (tagEEXT = tagEEXT) = True from by simp,
      show (tagEICO = tagEUID) = False from by decide,
      show (tagEICO = tagETIT) = False from by decide,
      show (tagEICO = tagEEXT) = False from by decide,
      show (tagEICO = tagEICO) = True from by simp,
      show (tagFBIN = tagEUID) = False from by decide,
      show (tagFBIN = tagETIT) = False from by decide,
      show (tagFBIN = tagEEXT) = False from by decide,
      show (tagFBIN = tagEICO) = False from by decide,
      show (tagFBIN = tagFBIN) = True from by simp,
      if_true, if_false]
    rw [stripNul_clean h1, stripNul_clean h2, stripNul_clean h3, stripNul_clean hsnul]
    rw [← hio]
  · have hio : b.iconCode = none := by
      cases hio : b.iconCode with
      | none => rfl
      | some s =>
        obtain ⟨hsne, _⟩ := hicon s hio
        rw [hio] at hic
        simp only [iconTruthy, Bool.not_eq_true', List.isEmpty_iff] at hic
        simp at hic
        exact absurd hic hsne
    have hspecs : blobSubSpecs b =
        [(tagEUID, b.uid ++ [0]), (tagETIT, b.title ++ [0]), (tagEEXT, b.extension ++ [0]),
         (tagFBIN, b.binaryData)] := by
      simp [blobSubSpecs, hic]
    have hchunks : readChunks (encodeSpecs (blobSubSpecs b)) 0
        (encodeSpecs (blobSubSpecs b)).length = chunksOf 0 (blobSubSpecs b) := by
      have h := readChunks_encode (blobSubSpecs b) [] (encodeSpecs (blobSubSpecs b))
        (by simp) ?_
      · simpa using h
      · rw [hspecs]
        intro x hx
        simp only [List.mem_cons, List.not_mem_nil, or_false] at hx
        rcases hx with rfl | rfl | rfl | rfl
        · exact ⟨show tagEUID ∈ knownTags from by decide, by simp; omega⟩
        · exact ⟨show tagETIT ∈ knownTags from by decide, by simp; omega⟩
        · exact ⟨show tagEEXT ∈ knownTags from by decide, by simp; omega⟩
        · exact ⟨show tagFBIN ∈ knownTags from by decide, l5⟩
    rw [hchunks, hspecs]
    simp only [chunksOf, List.foldl_cons, List.foldl_nil]
    simp only [parseBlobStep]
    simp only [show (tagEUID = tagEUID) = True from by simp,
      show (tagETIT = tagEUID) = False from by decide,
      show (tagETIT = tagETIT) = True from by simp,
      show (tagEEXT = tagEUID) = False from by decide,
      show (tagEEXT = tagETIT) = False from by decide,
      show (tagEEXT = tagEEXT) = True from by simp,
      show (tagFBIN = tagEUID) = False from by decide,
      show (tagFBIN = tagETIT) = False from by decide,
      show (tagFBIN = tagEEXT) = False from by decide,
      show (tagFBIN = tagEICO) = False from by decide,
      show (tagFBIN = tagFBIN) = True from by simp,
      if_true, if_false]
    rw [stripNul_clean h1, stripNul_clean h2, stripNul_clean h3]
    rw [← hio]

theorem foldl_blob_chunks : ∀ (blobs : List Blob) (off : Nat) (acc : Pack),
    (∀ b ∈ blobs, wfBlob b = true) →
    List.foldl parseStep acc
      (chunksOf off (blobs.map fun b => (tagBLOB, encodeSpecs (blobSubSpecs b)))) =
      Pack.mk acc.uid acc.title (acc.blobs ++ blobs) := by
  intro blobs
  induction blobs with
  | nil => intro off acc _; simp [chunksOf]
  | cons b bs ih =>
    intro off acc hwf
    simp only [List.map_cons, chunksOf, List.foldl_cons]
    have hstep : parseStep acc (RChunk.mk tagBLOB (encodeSpecs (blobSubSpecs b)).length
        (encodeSpecs (blobSubSpecs b)) off) = Pack.mk acc.uid acc.title (acc.blobs ++ [b]) := by
      unfold parseStep
      rw [if_neg (show ¬(tagBLOB = tagEUID) from by decide),
        if_neg (show ¬(tagBLOB = tagETIT) from by decide), if_pos rfl,
        parseBlobEntry_eq b _ off (hwf b (List.mem_cons_self b bs))]
    rw [hstep, ih _ _ (fun x hx => hwf x (List.mem_cons_of_mem _ hx))]
    simp

/-- C2 amended: for a well-formed Pack (NUL-free strings, no empty icon
codes, 32-bit sizes) whose serialized uid region contains no recognized-tag
window, decoding the encoded payload recovers the title and all blobs
field-by-field, but the pack uid comes back empty: `parsePPFRaw` starts
scanning at offset 8, which skips the leading EUID chunk's header. -/
theorem ppf_decode_encode (p : Pack) (hwf : wfPack p = true)
    (hclean : ∀ j, j < p.uid.length + 1 → isKnownTag (buildPayload p) (8 + j) = false) :
    parsePPFRaw (buildPayload p) = Pack.mk [] p.title p.blobs := by
  obtain ⟨ht0, htl, hbl⟩ := wfPack_props p hwf
  unfold parsePPFRaw
  rw [payload_chunks p hwf hclean]
  simp only [payloadSpecs, chunksOf, List.foldl_cons]
  have hstep : parseStep ⟨[], [], []⟩ (RChunk.mk tagETIT (p.title ++ [0]).length
      (p.title ++ [0]) (9 + p.uid.length)) = Pack.mk [] p.title [] := by
    unfold parseStep
    rw [if_neg (show ¬(tagETIT = tagEUID) from by decide), if_pos rfl, if_pos rfl,
      stripNul_clean ht0]
  rw [hstep, foldl_blob_chunks p.blobs _ (Pack.mk [] p.title []) hbl]
  simp

/-- C2 counterexample: the claim as stated fails already for a Pack with a
non-empty uid — the uid is lost on decode. -/
theorem ppf_roundtrip_counterexample :
    parsePPFRaw (buildPayload (Pack.mk [80,49] [84] [])) ≠ Pack.mk [80,49] [84] [] := by
  decide

/-- C2 witness at a concrete well-formed Pack. -/
theorem ppf_decode_encode_witness :
    wfPack (Pack.mk [80,49] [84] [Blob.mk [66] [83] [119] none [1,2,3]]) = true ∧
    parsePPFRaw (buildPayload (Pack.mk [80,49] [84] [Blob.mk [66] [83] [119] none [1,2,3]])) =
      Pack.mk [] [84] [Blob.mk [66] [83] [119] none [1,2,3]] :=
  ⟨by decide, ppf_decode_encode (Pack.mk [80,49] [84] [Blob.mk [66] [83] [119] none [1,2,3]])
    (by decide) (by decide)⟩

/-! ## Length lemmas for the cipher stack -/

theorem cbcEncGo_length (sk : List (Nat × Nat)) :
    ∀ (f : Nat) (data prev : List Nat), data.length ≤ f →
    (cbcEncGo sk f data prev).length = 8 * ((data.length + 7) / 8) := by
  intro f
  induction f with
  | zero =>
    intro data prev h
    have hnil : data = [] := List.eq_nil_of_length_eq_zero (by omega)
    subst hnil
    simp [cbcEncGo]
  | succ f ih =>
    intro data prev h
    by_cases hd : data.isEmpty
    · have hnil : data = [] := by simpa [List.isEmpty_iff] using hd
      subst hnil
      simp [cbcEncGo]
    · have hne : data ≠ [] := by simpa [List.isEmpty_iff] using hd
      have step : cbcEncGo sk (f+1) data prev =
          desBlock ((List.range 8).map fun j => getB data j ^^^ getB prev j) sk ++
            cbcEncGo sk f (data.drop 8)
              (desBlock ((List.range 8).map fun j => getB data j ^^^ getB prev j) sk) := by
        simp [cbcEncGo, hd]
      rw [step, List.length_append, ih (data.drop 8) _ (by simp [List.length_drop]; omega)]
      have hb : (desBlock ((List.range 8).map fun j => getB data j ^^^ getB prev j) sk).length
          = 8 := rfl
      rw [hb]
      simp only [List.length_drop]
      have hpos := List.length_pos.mpr hne
      omega

theorem encryptDES_CBC_length (data k iv : List Nat) :
    (encryptDES_CBC data k iv).length = 8 * ((data.length + 7) / 8) :=
  cbcEncGo_length _ data.length data iv le_rfl

theorem tdesGo_length (sk1 sk2 sk3 : List (Nat × Nat)) :
    ∀ (f : Nat) (data prev : List Nat), data.length ≤ f →
    (tdesGo sk1 sk2 sk3 f data prev).length = 8 * ((data.length + 7) / 8) := by
  intro f
  induction f with
  | zero =>
    intro data prev h
    have hnil : data = [] := List.eq_nil_of_length_eq_zero (by omega)
    subst hnil
    simp [tdesGo]
  | succ f ih =>
    intro data prev h
    by_cases hd : data.isEmpty
    · have hnil : data = [] := by simpa [List.isEmpty_iff] using hd
      subst hnil
      simp [tdesGo]
    · have hne : data ≠ [] := by simpa [List.isEmpty_iff] using hd
      have step : tdesGo sk1 sk2 sk3 (f+1) data prev =
          desBlock (desDecryptBlock (desBlock
              ((List.range 8).map fun j => getB data j ^^^ getB prev j) sk1) sk2) sk3 ++
            tdesGo sk1 sk2 sk3 f (data.drop 8)
              (desBlock (desDecryptBlock (desBlock
                ((List.range 8).map fun j => getB data j ^^^ getB prev j) sk1) sk2) sk3) := by
        simp [tdesGo, hd]
      rw [step, List.length_append, ih (data.drop 8) _ (by simp [List.length_drop]; omega)]
      have hb : (desBlock (desDecryptBlock (desBlock
          ((List.range 8).map fun j => getB data j ^^^ getB prev j) sk1) sk2) sk3).length
          = 8 := rfl
      rw [hb]
      simp only [List.length_drop]
      have hpos := List.length_pos.mpr hne
      omega

theorem tripleDesEncryptCBC_length (data key24 : List Nat) :
    (tripleDesEncryptCBC data key24).length = 8 * ((data.length + 7) / 8) :=
  tdesGo_length _ _ _ data.length data _ le_rfl

theorem addYamahaPadding_length (data : List Nat) :
    (addYamahaPadding data).length =
      data.length + (if data.length % 8 = 0 then 8 else 8 - data.length % 8) := by
  show ((data ++ List.replicate _ 0).set _ _).length = _
  rw [List.length_set]
  simp

/-- C5: with no device identifier, `buildEncryptedCPI` returns exactly the
XPIH container (XMDL + XPID) followed by one CSEC chunk carrying the 80-byte
constant blob followed by the encrypted payload, whose length is the
multiple of 8 equal to `8 * ceil((plaintext_length + 1) / 8)`. -/
theorem buildEncryptedCPI_layout (p : Pack) (modelName : List Nat) (id : Nat)
    (rand : List Nat) :
    buildEncryptedCPI p modelName id none rand =
      some (buildContainerChunk tagXPIH
          [buildTextChunk tagXMDL modelName, buildChunk tagXPID (u32be id)] ++
        buildChunk tagCSEC CSEC_ENCRYPTED ++
        encryptDES_CBC (addYamahaPadding (buildPayload p)) DES_KEY DES_IV) ∧
    CSEC_ENCRYPTED.length = 80 ∧
    (encryptDES_CBC (addYamahaPadding (buildPayload p)) DES_KEY DES_IV).length =
      8 * (((buildPayload p).length + 1 + 7) / 8) ∧
    (encryptDES_CBC (addYamahaPadding (buildPayload p)) DES_KEY DES_IV).length % 8 = 0 := by
  refine ⟨rfl, by decide, ?_, ?_⟩
  · rw [encryptDES_CBC_length, addYamahaPadding_length]
    by_cases h : (buildPayload p).length % 8 = 0
    · rw [if_pos h]; omega
    · rw [if_neg h]; omega
  · rw [encryptDES_CBC_length]; omega

/-! ## Device-lock key derivation -/

theorem keyDerivation_none_iff (s : List Nat) : keyDerivation s = none ↔ s = [] := by
  unfold keyDerivation
  by_cases h : s.length = 0
  · rw [if_pos h]
    simp [List.length_eq_zero.mp h]
  · rw [if_neg h]
    constructor
    · intro hc
      simp only [] at hc
      split at hc <;> simp at hc
    · intro hc
      subst hc
      simp at h

theorem keyDerivation_some (s : List Nat) (h : s ≠ []) :
    ∃ k, keyDerivation s = some k ∧ k.length = 16 := by
  have hl : ¬(s.length = 0) := by simpa [List.length_eq_zero] using h
  unfold keyDerivation
  rw [if_neg hl]
  by_cases h16 : 16 ≤ min s.length 128
  · rw [if_pos h16]
    exact ⟨_, rfl, by simp⟩
  · rw [if_neg h16]
    exact ⟨_, rfl, by simp⟩

/-- C9: device-lock key derivation fails exactly on the empty identifier
(and so does locked-CSEC generation); every non-empty identifier yields a
16-byte key. -/
theorem keyDerivation_empty_spec (s fd : List Nat) :
    (keyDerivation s = none ↔ s = []) ∧
    (generateLockedCSEC s fd = none ↔ s = []) ∧
    (s ≠ [] → ∃ k, keyDerivation s = some k ∧ k.length = 16) := by
  refine ⟨keyDerivation_none_iff s, ?_, keyDerivation_some s⟩
  unfold generateLockedCSEC
  cases hk : keyDerivation s with
  | none =>
    simp [(keyDerivation_none_iff s).mp hk]
  | some ks =>
    simp only []
    constructor
    · intro hc
      simp at hc
    · intro hc
      subst hc
      rw [(keyDerivation_none_iff []).mpr rfl] at hk
      exact Option.noConfusion hk

/-- C9 witness at concrete identifiers. -/
theorem keyDerivation_empty_spec_witness :
    keyDerivation [] = none ∧ keyDerivation [7] ≠ none ∧
      ∃ k, keyDerivation [7] = some k ∧ k.length = 16 := by
  refine ⟨?_, ?_, (keyDerivation_empty_spec [7] []).2.2 (by decide)⟩
  · exact (keyDerivation_empty_spec [] []).1.mpr rfl
  · intro hc
    exact absurd ((keyDerivation_empty_spec [7] []).1.mp hc) (by decide)

/-- C6: for every non-empty device identifier (and 16 random bytes), the
second 16-byte block pairs output byte `j` with input byte `15-j`
(`secondData[j] = (keySlot[j] + firstData[15-j]) mod 256`) and the resulting
encrypted CSEC blob is exactly 80 bytes. -/
theorem generateLockedCSEC_spec (dev fd : List Nat) (hdev : dev ≠ [])
    (hfd : fd.length = 16) :
    ∃ ks, keyDerivation dev = some ks ∧
      (∀ j, j < 16 → (lockedSecondData ks fd).getD j 0 =
        (ks.getD j 0 + fd.getD (15 - j) 0) % 256) ∧
      ∃ out, generateLockedCSEC dev fd = some out ∧ out.length = 80 := by
  obtain ⟨ks, hks, hksl⟩ := keyDerivation_some dev hdev
  refine ⟨ks, hks, ?_, ?_⟩
  · intro j hj
    simp [lockedSecondData, List.getD_eq_getElem?_getD, List.getElem?_map,
      List.getElem?_range, hj, getB]
  · have hout : generateLockedCSEC dev fd =
        some (encryptDES_CBC (addYamahaPadding (buildChunk tagABCF [0, 1] ++
          buildChunk tagABEI (buildChunk tagAIRI
            (encryptDES_CBC (addYamahaPadding fd) DES_KEY_DUALSEAL DES_IV) ++
          buildChunk tagAIVF (tripleDesEncryptCBC (lockedSecondData ks fd)
            (keyExpansion ks))))) DES_KEY DES_IV) := by
      unfold generateLockedCSEC
      rw [hks]
    refine ⟨_, hout, ?_⟩
    have lAiri : (encryptDES_CBC (addYamahaPadding fd) DES_KEY_DUALSEAL DES_IV).length = 24 := by
      rw [encryptDES_CBC_length, addYamahaPadding_length, hfd]
      norm_num
    have lSecond : (lockedSecondData ks fd).length = 16 := by simp [lockedSecondData]
    have lAivf : (tripleDesEncryptCBC (lockedSecondData ks fd) (keyExpansion ks)).length
        = 16 := by
      rw [tripleDesEncryptCBC_length, lSecond]
    have lplain : (buildChunk tagABCF [0, 1] ++
        buildChunk tagABEI (buildChunk tagAIRI
          (encryptDES_CBC (addYamahaPadding fd) DES_KEY_DUALSEAL DES_IV) ++
        buildChunk tagAIVF (tripleDesEncryptCBC (lockedSecondData ks fd)
          (keyExpansion ks)))).length = 74 := by
      rw [List.length_append, buildChunk_length _ _ (by decide),
        buildChunk_length _ _ (by decide), List.length_append,
        buildChunk_length _ _ (by decide), buildChunk_length _ _ (by decide),
        lAiri, lAivf]
      rfl
    rw [encryptDES_CBC_length, addYamahaPadding_length, lplain]
    norm_num

/-- C6 witness at a concrete identifier and random block. -/
theorem generateLockedCSEC_spec_witness :
    ∃ ks, keyDerivation [65] = some ks ∧
      (∀ j, j < 16 → (lockedSecondData ks (List.range 16)).getD j 0 =
        (ks.getD j 0 + (List.range 16).getD (15 - j) 0) % 256) ∧
      ∃ out, generateLockedCSEC [65] (List.range 16) = some out ∧ out.length = 80 :=
  generateLockedCSEC_spec [65] (List.range 16) (by decide) (by simp)

/-- C8 amended: injecting garbage `G` between two valid chunks leaves the
decoded tags, sizes and payloads unchanged, provided no 4-byte window
STARTING inside `G` — including windows that straddle into the following
chunk's tag — matches a recognized tag. -/
theorem resync_insert (t1 d1 t2 d2 G : List Nat)
    (h1 : t1 ∈ knownTags) (hd1 : d1.length < 4294967296)
    (h2 : t2 ∈ knownTags) (hd2 : d2.length < 4294967296)
    (hG : ∀ j, j < G.length →
      isKnownTag (buildChunk t1 d1 ++ (G ++ buildChunk t2 d2))
        ((buildChunk t1 d1).length + j) = false) :
    (readChunks (buildChunk t1 d1 ++ (G ++ buildChunk t2 d2)) 0
        (buildChunk t1 d1 ++ (G ++ buildChunk t2 d2)).length).map
      (fun c => (c.id, c.size, c.data)) =
    (readChunks (buildChunk t1 d1 ++ buildChunk t2 d2) 0
        (buildChunk t1 d1 ++ buildChunk t2 d2).length).map
      (fun c => (c.id, c.size, c.data)) := by
  have ht14 : t1.length = 4 := knownTags_length t1 h1
  have ht24 : t2.length = 4 := knownTags_length t2 h2
  have hrhs : readChunks (buildChunk t1 d1 ++ buildChunk t2 d2) 0
      (buildChunk t1 d1 ++ buildChunk t2 d2).length =
      chunksOf 0 [(t1, d1), (t2, d2)] := by
    have h := readChunks_encode [(t1, d1), (t2, d2)] []
      (buildChunk t1 d1 ++ buildChunk t2 d2) (by simp [encodeSpecs]) ?_
    · simpa using h
    · intro x hx
      simp only [List.mem_cons, List.not_mem_nil, or_false] at hx
      rcases hx with rfl | rfl
      · exact ⟨h1, hd1⟩
      · exact ⟨h2, hd2⟩
  have hlen1 : (buildChunk t1 d1).length = 8 + d1.length := buildChunk_length t1 d1 ht14
  have hlen2 : (buildChunk t2 d2).length = 8 + d2.length := buildChunk_length t2 d2 ht24
  have harr : buildChunk t1 d1 ++ (G ++ buildChunk t2 d2) =
      t1 ++ (u32be d1.length ++ (d1 ++ (G ++ buildChunk t2 d2))) := by
    simp [buildChunk, tag4_of_length ht14, List.append_assoc]
  have hblen : (buildChunk t1 d1 ++ (G ++ buildChunk t2 d2)).length =
      8 + d1.length + G.length + (8 + d2.length) := by
    simp only [List.length_append, hlen1, hlen2]
    omega
  have htag0 : isKnownTag (buildChunk t1 d1 ++ (G ++ buildChunk t2 d2)) 0 = true := by
    rw [harr]
    have h := isKnownTag_at [] t1 (u32be d1.length ++ (d1 ++ (G ++ buildChunk t2 d2))) h1
    simpa using h
  have hsz0 : readUint32BE (buildChunk t1 d1 ++ (G ++ buildChunk t2 d2)) 4 = d1.length := by
    rw [harr]
    have h := readU32_at t1 (d1 ++ (G ++ buildChunk t2 d2)) d1.length hd1
    rwa [ht14] at h
  have hid0 : jsSlice (buildChunk t1 d1 ++ (G ++ buildChunk t2 d2)) 0 4 = t1 := by
    rw [harr]
    have h := jsSlice_at [] t1 (u32be d1.length ++ (d1 ++ (G ++ buildChunk t2 d2)))
    simpa [ht14] using h
  have hdata0 : jsSlice (buildChunk t1 d1 ++ (G ++ buildChunk t2 d2)) 8
      (8 + d1.length) = d1 := by
    have harr2 : buildChunk t1 d1 ++ (G ++ buildChunk t2 d2) =
        (t1 ++ u32be d1.length) ++ (d1 ++ (G ++ buildChunk t2 d2)) := by
      rw [harr]
      simp [List.append_assoc]
    have h := jsSlice_at (t1 ++ u32be d1.length) d1 (G ++ buildChunk t2 d2)
    rw [← harr2] at h
    have hX : (t1 ++ u32be d1.length).length = 8 := by simp [ht14, u32be]
    rwa [hX] at h
  have h8 : 0 + 8 ≤ (buildChunk t1 d1 ++ (G ++ buildChunk t2 d2)).length := by omega
  have hcons := readChunks_cons (buildChunk t1 d1 ++ (G ++ buildChunk t2 d2)) 0
    (buildChunk t1 d1 ++ (G ++ buildChunk t2 d2)).length htag0 h8
  simp only [Nat.zero_add] at hcons
  rw [hsz0] at hcons
  have hmin : min (8 + d1.length) (buildChunk t1 d1 ++ (G ++ buildChunk t2 d2)).length =
      8 + d1.length := min_eq_left (by omega)
  rw [hmin, hid0, hdata0] at hcons
  have hskip : readChunks (buildChunk t1 d1 ++ (G ++ buildChunk t2 d2)) (8 + d1.length)
      (buildChunk t1 d1 ++ (G ++ buildChunk t2 d2)).length =
      readChunks (buildChunk t1 d1 ++ (G ++ buildChunk t2 d2)) (8 + d1.length + G.length)
        (buildChunk t1 d1 ++ (G ++ buildChunk t2 d2)).length := by
    apply readChunks_skip_region _ _ _ _ (by omega) (by omega)
    intro j hj
    have hGj := hG j (by omega)
    rwa [hlen1] at hGj
  have henc2 : readChunks (buildChunk t1 d1 ++ (G ++ buildChunk t2 d2))
      (8 + d1.length + G.length)
      (buildChunk t1 d1 ++ (G ++ buildChunk t2 d2)).length =
      chunksOf (8 + d1.length + G.length) [(t2, d2)] := by
    have harr3 : buildChunk t1 d1 ++ (G ++ buildChunk t2 d2) =
        (buildChunk t1 d1 ++ G) ++ encodeSpecs [(t2, d2)] := by
      simp [encodeSpecs, List.append_assoc]
    have h := readChunks_encode [(t2, d2)] (buildChunk t1 d1 ++ G)
      (buildChunk t1 d1 ++ (G ++ buildChunk t2 d2)) harr3 ?_
    · have hAl : (buildChunk t1 d1 ++ G).length = 8 + d1.length + G.length := by
        simp only [List.length_append, hlen1]
      rwa [hAl] at h
    · intro x hx
      simp only [List.mem_cons, List.not_mem_nil, or_false] at hx
      rcases hx with rfl
      exact ⟨h2, hd2⟩
  rw [hcons, hskip, henc2, hrhs]
  simp [chunksOf]

/-- C8 counterexample: garbage `CSE` (which contains no 4-byte window at
all) injected before a CSEC chunk forms a bogus `CSEC` window straddling the
boundary, so the decoded sizes and payloads change. -/
theorem resync_counterexample :
    (readChunks (buildChunk tagEUID [65] ++ ([67,83,69] ++ buildChunk tagCSEC []))
        0 (buildChunk tagEUID [65] ++ ([67,83,69] ++ buildChunk tagCSEC [])).length).map
      (fun c => (c.id, c.size, c.data)) ≠
    (readChunks (buildChunk tagEUID [65] ++ buildChunk tagCSEC [])
        0 (buildChunk tagEUID [65] ++ buildChunk tagCSEC []).length).map
      (fun c => (c.id, c.size, c.data)) := by decide

/-- C8 witness at concrete chunks and garbage. -/
theorem resync_insert_witness :
    (readChunks (buildChunk tagEUID [65] ++ ([1,2,3] ++ buildChunk tagCSEC [7]))
        0 (buildChunk tagEUID [65] ++ ([1,2,3] ++ buildChunk tagCSEC [7])).length).map
      (fun c => (c.id, c.size, c.data)) =
    (readChunks (buildChunk tagEUID [65] ++ buildChunk tagCSEC [7])
        0 (buildChunk tagEUID [65] ++ buildChunk tagCSEC [7]).length).map
      (fun c => (c.id, c.size, c.data)) :=
  resync_insert tagEUID [65] tagCSEC [7] [1,2,3] (by decide) (by decide) (by decide)
    (by decide) (by decide)

end Converter

